import Mathlib

/-!
Verification of the document-assembly core of the `Inf_Auditoria_1612`
report platform.

The development shallowly embeds the Python modules
`core/conditions_engine.py`, `core/tables_engine.py`,
`core/word_engine.py` and `core/xml_word_engine.py`.  Pure functions
become Lean functions, Python `dict`s become association lists,
CPython exceptions become `Except`/`Option`, and the two unbounded
`while marker in text` loops of the XML engine become fuel-indexed
functions returning `none` when the fuel runs out (which models a
non-terminating run).

CPython pieces that the repository calls but does not define
(`ast.parse`, the `str`/`float` builtins) are modelled explicitly where
a claim needs them; every such model is marked in its doc comment.
-/

namespace PyStr

/-- The ASCII whitespace characters recognised by `str.strip()` /
`str.isspace()`.  (Python also strips some exotic Unicode whitespace;
the claims only involve ASCII.) -/
def pyIsSpace (c : Char) : Bool :=
  c = ' ' || c = '\t' || c = '\n' || c = '\x0d' || c = '\x0b' || c = '\x0c'

/-- `s.strip()` on a character list: drop leading and trailing whitespace. -/
def pyStrip (s : List Char) : List Char :=
  ((s.dropWhile pyIsSpace).reverse.dropWhile pyIsSpace).reverse

/-- Whether `needle` occurs at the very start of `hay`. -/
def charsPrefix : List Char → List Char → Bool
  | [], _ => true
  | _ :: _, [] => false
  | a :: as_, b :: bs => a = b && charsPrefix as_ bs

/-- Python substring test `needle in hay` (true for the empty needle,
exactly like CPython). -/
def containsSub (needle hay : List Char) : Bool :=
  charsPrefix needle hay ||
    match hay with
    | [] => false
    | _ :: t => containsSub needle t

/-- Python `hay.index(needle)`: index of the first occurrence, `none` when
the needle does not occur. -/
def firstIdx (needle hay : List Char) : Option Nat :=
  if charsPrefix needle hay then some 0
  else
    match hay with
    | [] => none
    | _ :: t => (firstIdx needle t).map (· + 1)

end PyStr

namespace CondEngine

open PyStr

/-- The Python runtime values the safe evaluator can produce: `None`,
booleans, integers, strings, lists and tuples.  Floating point literals
are outside the claims and are not modelled. -/
inductive PyVal where
  | none : PyVal
  | bool (b : Bool) : PyVal
  | int (n : Int) : PyVal
  | str (s : String) : PyVal
  | list (xs : List PyVal) : PyVal
  | tuple (xs : List PyVal) : PyVal

/-- Python truthiness (`bool(v)`). -/
def pyTruthy : PyVal → Bool
  | .none => false
  | .bool b => b
  | .int n => n ≠ 0
  | .str s => s ≠ ""
  | .list xs => ¬ xs.isEmpty
  | .tuple xs => ¬ xs.isEmpty

mutual

/-- Python `==` on the modelled values.  Booleans compare numerically with
integers (`True == 1` in CPython); values of unrelated types compare
unequal without raising. -/
def pyEq (a b : PyVal) : Bool :=
  match a, b with
  | .none, .none => true
  | .bool a, .bool b => a = b
  | .bool a, .int n => (if a then (1 : Int) else 0) = n
  | .int n, .bool a => n = (if a then (1 : Int) else 0)
  | .int a, .int b => a = b
  | .str a, .str b => a = b
  | .list a, .list b => pyEqList a b
  | .tuple a, .tuple b => pyEqList a b
  | _, _ => false
termination_by structural a

def pyEqList (a b : List PyVal) : Bool :=
  match a, b with
  | [], [] => true
  | x :: xs, y :: ys => pyEq x y && pyEqList xs ys
  | _, _ => false
termination_by structural a

end

/-- The exceptions the evaluator can raise internally; `evaluate_condition`
catches all of them. -/
inductive PyError where
  | valueError : PyError
  | typeError : PyError
deriving Repr, DecidableEq

/-- Numeric view of ints and bools (`True` behaves as `1`). -/
def pyNum : PyVal → Option Int
  | .int n => some n
  | .bool b => some (if b then 1 else 0)
  | _ => Option.none

mutual

/-- Python `<`-style ordering.  Numbers compare numerically, strings by
code point, lists/tuples lexicographically; any other mix raises
`TypeError`. -/
def pyCmp (a b : PyVal) : Except PyError Ordering :=
  match a, b with
  | .str a, .str b => .ok (compare a b)
  | .list a, .list b => pyCmpList a b
  | .tuple a, .tuple b => pyCmpList a b
  | a, b =>
    match pyNum a, pyNum b with
    | some x, some y => .ok (compare x y)
    | _, _ => .error .typeError
termination_by structural a

def pyCmpList (a b : List PyVal) : Except PyError Ordering :=
  match a, b with
  | [], [] => .ok .eq
  | [], _ :: _ => .ok .lt
  | _ :: _, [] => .ok .gt
  | x :: xs, y :: ys =>
    if pyEq x y then pyCmpList xs ys
    else do
      let o ← pyCmp x y
      pure o
termination_by structural a

end

/-- Python membership `left in right`: substring test for strings,
`==`-based membership for lists and tuples, `TypeError` otherwise. -/
def pyIn (left right : PyVal) : Except PyError Bool :=
  match right with
  | .str s =>
    match left with
    | .str l => .ok (containsSub l.toList s.toList)
    | _ => .error .typeError
  | .list xs => .ok (xs.any (pyEq left))
  | .tuple xs => .ok (xs.any (pyEq left))
  | _ => .error .typeError

end CondEngine

namespace CondEngine

/-- Comparison operators accepted by `SafeConditionEvaluator.visit_Compare`.
(`is`/`is not` are also accepted by the source, but object identity is not
value-determined, so they are outside the embedding; no claim uses them.) -/
inductive CmpOp where
  | eq | ne | lt | le | gt | ge | inOp | notIn
deriving Repr, DecidableEq

/-- Unary operators accepted by `visit_UnaryOp`. -/
inductive UOp where
  | notOp | uadd | usub
deriving Repr, DecidableEq

/-- Boolean operators accepted by `visit_BoolOp`. -/
inductive BOp where
  | andOp | orOp
deriving Repr, DecidableEq

/-- The Python `ast` expression nodes that reach `SafeConditionEvaluator`.
The constructors mirror the `visit_*` methods of the source; `disallowed`
stands for every other node kind (`Call`, `Attribute`, `BinOp`,
assignment, import, ...), which the source handles in `generic_visit`.
The string argument records the Python node class name. -/
inductive Expr where
  | boolop (op : BOp) (values : List Expr)
  | unop (op : UOp) (operand : Expr)
  | compare (left : Expr) (rest : List (CmpOp × Expr))
  | name (id : String)
  | const (v : PyVal)
  | listlit (elts : List Expr)
  | tuplelit (elts : List Expr)
  | disallowed (kind : String)

/-- The evaluation context: a Python dict of variables. -/
abbrev Ctx := List (String × PyVal)

/-- Python dict lookup. -/
def ctxLookup (ctx : Ctx) (k : String) : Option PyVal :=
  match ctx with
  | [] => Option.none
  | (k2, v) :: rest => if k2 = k then some v else ctxLookup rest k

/-- `visit_Compare`: apply one comparison operator. -/
def applyCmp (op : CmpOp) (left right : PyVal) : Except PyError Bool :=
  match op with
  | .eq => .ok (pyEq left right)
  | .ne => .ok (¬ pyEq left right)
  | .lt => do pure ((← pyCmp left right) = .lt)
  | .le => do pure ((← pyCmp left right) ≠ .gt)
  | .gt => do pure ((← pyCmp left right) = .gt)
  | .ge => do pure ((← pyCmp left right) ≠ .lt)
  | .inOp => pyIn left right
  | .notIn => do pure (¬ (← pyIn left right))

/-- `visit_UnaryOp` after the operand has been evaluated. -/
def applyUOp (op : UOp) (operand : PyVal) : Except PyError PyVal :=
  match op with
  | .notOp => .ok (.bool (¬ pyTruthy operand))
  | .uadd =>
    match pyNum operand with
    | some n => .ok (.int n)
    | _ => .error .typeError
  | .usub =>
    match pyNum operand with
    | some n => .ok (.int (-n))
    | _ => .error .typeError

/-- `visit_Name`: the constants `True`/`False`/`None` are checked before the
context; an unknown variable resolves to `None` (with a logged warning). -/
def visitName (ctx : Ctx) (id : String) : PyVal :=
  if id = "True" then .bool true
  else if id = "False" then .bool false
  else if id = "None" then .none
  else
    match ctxLookup ctx id with
    | some v => v
    | Option.none => .none

mutual

/-- `SafeConditionEvaluator.visit`, the allow-listed AST dispatch of
`conditions_engine.py`.  `disallowed` nodes reproduce `generic_visit`,
which raises `ValueError`. -/
def visit (ctx : Ctx) (e : Expr) : Except PyError PyVal :=
  match e with
  | .boolop .andOp vs => do pure (.bool (← visitAll ctx vs))
  | .boolop .orOp vs => do pure (.bool (← visitAny ctx vs))
  | .unop op e => do applyUOp op (← visit ctx e)
  | .compare l rest => do pure (.bool (← visitCompare ctx (← visit ctx l) rest))
  | .name id => .ok (visitName ctx id)
  | .const v => .ok v
  | .listlit es => do pure (.list (← visitElts ctx es))
  | .tuplelit es => do pure (.tuple (← visitElts ctx es))
  | .disallowed _ => .error .valueError
termination_by structural e

/-- `all(self.visit(value) for value in node.values)`: short-circuits at the
first falsy operand, so later operands are not visited. -/
def visitAll (ctx : Ctx) (es : List Expr) : Except PyError Bool :=
  match es with
  | [] => .ok true
  | e :: es => do
    if pyTruthy (← visit ctx e) then visitAll ctx es else pure false
termination_by structural es

/-- `any(self.visit(value) for value in node.values)`: short-circuits at the
first truthy operand. -/
def visitAny (ctx : Ctx) (es : List Expr) : Except PyError Bool :=
  match es with
  | [] => .ok false
  | e :: es => do
    if pyTruthy (← visit ctx e) then pure true else visitAny ctx es
termination_by structural es

/-- The loop of `visit_Compare`: each comparator is evaluated in turn and
becomes the left operand of the next comparison (chained comparisons);
a false comparison stops the loop. -/
def visitCompare (ctx : Ctx) (left : PyVal) (rest : List (CmpOp × Expr)) : Except PyError Bool :=
  match rest with
  | [] => .ok true
  | (op, cmpE) :: rest => do
    let right ← visit ctx cmpE
    if ← applyCmp op left right then visitCompare ctx right rest else pure false
termination_by structural rest

/-- Element-wise evaluation for list/tuple literals. -/
def visitElts (ctx : Ctx) (es : List Expr) : Except PyError (List PyVal) :=
  match es with
  | [] => .ok []
  | e :: es => do pure ((← visit ctx e) :: (← visitElts ctx es))
termination_by structural es

end

/-- `evaluate_condition(condition, context)`.

The source first returns `True` for a blank condition, then parses the
string with CPython `ast.parse` and evaluates the tree, catching every
exception (syntax errors and rejected constructs alike) and returning
`False`.  `ast.parse` is CPython code, not repository code, so its
outcome is passed explicitly as `parsed` (`Option.none` models a parse
failure); `pyParse` below instantiates it for the expression grammar
this repository generates. -/
def evaluate_condition (condition : String) (parsed : Option Expr) (context : Ctx) : Bool :=
  if condition.toList.all PyStr.pyIsSpace then true
  else
    match parsed with
    | Option.none => false
    | some e =>
      match visit context e with
      | .ok v => pyTruthy v
      | .error _ => false

mutual

/-- Whether an expression contains a construct rejected by
`generic_visit` (function call, attribute access, arithmetic, ...). -/
def containsDisallowed (e : Expr) : Bool :=
  match e with
  | .boolop _ vs => containsDisallowedList vs
  | .unop _ e => containsDisallowed e
  | .compare l rest => containsDisallowed l || containsDisallowedPairs rest
  | .name _ => false
  | .const _ => false
  | .listlit es => containsDisallowedList es
  | .tuplelit es => containsDisallowedList es
  | .disallowed _ => true
termination_by structural e

def containsDisallowedList (es : List Expr) : Bool :=
  match es with
  | [] => false
  | e :: es => containsDisallowed e || containsDisallowedList es
termination_by structural es

def containsDisallowedPairs (es : List (CmpOp × Expr)) : Bool :=
  match es with
  | [] => false
  | (_, e) :: es => containsDisallowed e || containsDisallowedPairs es
termination_by structural es

end

end CondEngine

namespace CondEngine

/-- Tokens of the expression fragment that the repository feeds to
`ast.parse`: identifiers, integers, single-quoted strings, comparison
operators, boolean keywords and parentheses. -/
inductive Tok where
  | ident (s : String)
  | intTok (n : Nat)
  | strTok (s : String)
  | opEq | opNe | opLt | opLe | opGt | opGe
  | opPlus | opMinus
  | kwAnd | kwOr | kwNot | kwTrue | kwFalse | kwNone
  | lpar | rpar
deriving Repr, DecidableEq

/-- Modelled from CPython: the lexer for single-quoted string literals.
Handles the escapes the repository can emit (escaped quote, escaped
backslash, newline, tab); any other backslash pair keeps the backslash,
as CPython does for unrecognised escapes.  Returns `none` for an
unterminated literal (a `SyntaxError` in CPython). -/
def lexStr : List Char → Option (List Char × List Char)
  | [] => Option.none
  | c :: rest =>
    if c = '\'' then some ([], rest)
    else if c = '\\' then
      match rest with
      | [] => Option.none
      | e :: rest2 =>
        let piece : List Char :=
          if e = '\'' then ['\'']
          else if e = '\\' then ['\\']
          else if e = 'n' then ['\n']
          else if e = 't' then ['\t']
          else ['\\', e]
        (lexStr rest2).map (fun p => (piece ++ p.1, p.2))
    else
      (lexStr rest).map (fun p => (c :: p.1, p.2))

/-- Decimal value of a digit string. -/
def digitsToNat (ds : List Char) : Nat :=
  ds.foldl (fun a c => 10 * a + (c.toNat - 48)) 0

def isIdentStart (c : Char) : Bool := c.isAlpha || c = '_'
def isIdentChar (c : Char) : Bool := c.isAlphanum || c = '_'

/-- Map a lexed word to its keyword token or to an identifier. -/
def wordTok (s : String) : Tok :=
  if s = "and" then .kwAnd
  else if s = "or" then .kwOr
  else if s = "not" then .kwNot
  else if s = "True" then .kwTrue
  else if s = "False" then .kwFalse
  else if s = "None" then .kwNone
  else .ident s

/-- Modelled from CPython: the tokenizer of `ast.parse`, restricted to the
fragment grammar above.  `none` models a `SyntaxError`. -/
def lexTokens (fuel : Nat) (cs : List Char) : Option (List Tok) :=
  match fuel with
  | 0 => Option.none
  | fuel + 1 =>
    match cs with
    | [] => some []
    | c :: rest =>
      if c = ' ' || c = '\t' then lexTokens fuel rest
      else if isIdentStart c then
        let w := c :: rest.takeWhile isIdentChar
        let rest2 := rest.dropWhile isIdentChar
        (lexTokens fuel rest2).map (wordTok (String.mk w) :: ·)
      else if c.isDigit then
        let ds := c :: rest.takeWhile Char.isDigit
        let rest2 := rest.dropWhile Char.isDigit
        (lexTokens fuel rest2).map (Tok.intTok (digitsToNat ds) :: ·)
      else if c = '\'' then
        match lexStr rest with
        | some (body, rest2) => (lexTokens fuel rest2).map (Tok.strTok (String.mk body) :: ·)
        | Option.none => Option.none
      else if c = '=' then
        match rest with
        | '=' :: rest2 => (lexTokens fuel rest2).map (Tok.opEq :: ·)
        | _ => Option.none
      else if c = '!' then
        match rest with
        | '=' :: rest2 => (lexTokens fuel rest2).map (Tok.opNe :: ·)
        | _ => Option.none
      else if c = '<' then
        match rest with
        | '=' :: rest2 => (lexTokens fuel rest2).map (Tok.opLe :: ·)
        | _ => (lexTokens fuel rest).map (Tok.opLt :: ·)
      else if c = '>' then
        match rest with
        | '=' :: rest2 => (lexTokens fuel rest2).map (Tok.opGe :: ·)
        | _ => (lexTokens fuel rest).map (Tok.opGt :: ·)
      else if c = '+' then (lexTokens fuel rest).map (Tok.opPlus :: ·)
      else if c = '-' then (lexTokens fuel rest).map (Tok.opMinus :: ·)
      else if c = '(' then (lexTokens fuel rest).map (Tok.lpar :: ·)
      else if c = ')' then (lexTokens fuel rest).map (Tok.rpar :: ·)
      else Option.none

/-- Comparison-operator lookahead for the parser. -/
def tokCmpOp : Tok → Option CmpOp
  | .opEq => some .eq
  | .opNe => some .ne
  | .opLt => some .lt
  | .opLe => some .le
  | .opGt => some .gt
  | .opGe => some .ge
  | _ => Option.none

mutual

/-- Modelled from CPython `ast.parse`: `or`-expressions.  Same-operator
chains are flattened into a single `BoolOp` node, as CPython does. -/
def parseOr (fuel : Nat) (ts : List Tok) : Option (Expr × List Tok) :=
  match fuel with
  | 0 => Option.none
  | fuel + 1 => do
    let (first, ts) ← parseAnd fuel ts
    let (more, ts) ← parseOrTail fuel ts
    pure (if more.isEmpty then (first, ts) else (.boolop .orOp (first :: more), ts))
termination_by structural fuel

def parseOrTail (fuel : Nat) (ts : List Tok) : Option (List Expr × List Tok) :=
  match fuel with
  | 0 => Option.none
  | fuel + 1 =>
    match ts with
    | .kwOr :: ts => do
      let (e, ts) ← parseAnd fuel ts
      let (more, ts) ← parseOrTail fuel ts
      pure (e :: more, ts)
    | _ => some ([], ts)
termination_by structural fuel

def parseAnd (fuel : Nat) (ts : List Tok) : Option (Expr × List Tok) :=
  match fuel with
  | 0 => Option.none
  | fuel + 1 => do
    let (first, ts) ← parseNot fuel ts
    let (more, ts) ← parseAndTail fuel ts
    pure (if more.isEmpty then (first, ts) else (.boolop .andOp (first :: more), ts))
termination_by structural fuel

def parseAndTail (fuel : Nat) (ts : List Tok) : Option (List Expr × List Tok) :=
  match fuel with
  | 0 => Option.none
  | fuel + 1 =>
    match ts with
    | .kwAnd :: ts => do
      let (e, ts) ← parseNot fuel ts
      let (more, ts) ← parseAndTail fuel ts
      pure (e :: more, ts)
    | _ => some ([], ts)
termination_by structural fuel

def parseNot (fuel : Nat) (ts : List Tok) : Option (Expr × List Tok) :=
  match fuel with
  | 0 => Option.none
  | fuel + 1 =>
    match ts with
    | .kwNot :: ts => do
      let (e, ts) ← parseNot fuel ts
      pure (.unop .notOp e, ts)
    | _ => parseCmp fuel ts
termination_by structural fuel

def parseCmp (fuel : Nat) (ts : List Tok) : Option (Expr × List Tok) :=
  match fuel with
  | 0 => Option.none
  | fuel + 1 => do
    let (left, ts) ← parseAtom fuel ts
    let (rest, ts) ← parseCmpTail fuel ts
    pure (if rest.isEmpty then (left, ts) else (.compare left rest, ts))
termination_by structural fuel

def parseCmpTail (fuel : Nat) (ts : List Tok) : Option (List (CmpOp × Expr) × List Tok) :=
  match fuel with
  | 0 => Option.none
  | fuel + 1 =>
    match ts with
    | t :: ts2 =>
      match tokCmpOp t with
      | some op => do
        let (e, ts3) ← parseAtom fuel ts2
        let (more, ts4) ← parseCmpTail fuel ts3
        pure ((op, e) :: more, ts4)
      | Option.none => some ([], ts)
    | [] => some ([], ts)
termination_by structural fuel

def parseAtom (fuel : Nat) (ts : List Tok) : Option (Expr × List Tok) :=
  match fuel with
  | 0 => Option.none
  | fuel + 1 =>
    match ts with
    | .ident s :: ts => some (.name s, ts)
    | .intTok n :: ts => some (.const (.int (Int.ofNat n)), ts)
    | .strTok s :: ts => some (.const (.str s), ts)
    | .kwTrue :: ts => some (.const (.bool true), ts)
    | .kwFalse :: ts => some (.const (.bool false), ts)
    | .kwNone :: ts => some (.const .none, ts)
    | .opMinus :: ts => do
      let (e, ts) ← parseAtom fuel ts
      pure (.unop .usub e, ts)
    | .opPlus :: ts => do
      let (e, ts) ← parseAtom fuel ts
      pure (.unop .uadd e, ts)
    | .lpar :: ts => do
      let (e, ts) ← parseOr fuel ts
      match ts with
      | .rpar :: ts => pure (e, ts)
      | _ => Option.none
    | _ => Option.none
termination_by structural fuel

end

/-- Modelled from CPython: `ast.parse(s, mode="eval").body`, restricted to
the expression fragment the repository generates (comparisons, boolean
operators, `not`, unary sign, parentheses, identifiers, integers and
single-quoted strings).  `Option.none` models a `SyntaxError`. -/
def pyParse (s : String) : Option Expr := do
  let toks ← lexTokens (s.length + 1) s.toList
  let (e, rest) ← parseOr (5 * toks.length + 10) toks
  if rest.isEmpty then pure e else Option.none

end CondEngine

namespace CondEngine

/-- A rule of a text block (`schema_models.BlockRule`): a condition
expression and the template selected when the condition holds. -/
structure BlockRule where
  cuando : String
  plantilla : String

/-- A text block (`schema_models.BlockDefinition`): an ordered list of
rules. -/
structure BlockDefinition where
  id : String
  reglas : List BlockRule

/-- The `for rule in block.reglas` loop of `evaluate_block`.  `parse` is
the `ast.parse` oracle handed to `evaluate_condition`. -/
def evaluateRules (parse : String → Option Expr) (context : Ctx) : List BlockRule → Option String
  | [] => Option.none
  | r :: rs =>
    if evaluate_condition r.cuando (parse r.cuando) context then some r.plantilla
    else evaluateRules parse context rs

/-- `evaluate_block(block, context)`: the template of the first rule whose
condition evaluates true, else `None`. -/
def evaluate_block (parse : String → Option Expr) (block : BlockDefinition) (context : Ctx) :
    Option String :=
  evaluateRules parse context block.reglas

/-- Python dict assignment `m[k] = v` on an insertion-ordered association
list with unique keys: overwrite in place when the key exists, append
otherwise. -/
def dictInsert (m : List (String × String)) (k v : String) : List (String × String) :=
  match m with
  | [] => [(k, v)]
  | (k2, v2) :: rest => if k2 = k then (k, v) :: rest else (k2, v2) :: dictInsert rest k v

/-- Python dict lookup on the same representation. -/
def dictLookup (m : List (String × String)) (k : String) : Option String :=
  match m with
  | [] => Option.none
  | (k2, v) :: rest => if k2 = k then some v else dictLookup rest k

/-- The value stored for one block: the selected template, or the empty
string when no rule matched. -/
def blockVal (parse : String → Option Expr) (context : Ctx) (block : BlockDefinition) : String :=
  match evaluate_block parse block context with
  | some plantilla => plantilla
  | Option.none => ""

/-- `evaluate_all_blocks(blocks, context)`: build the `results` dict,
assigning `blockVal` for every block. -/
def evaluate_all_blocks (parse : String → Option Expr) (blocks : List BlockDefinition)
    (context : Ctx) : List (String × String) :=
  blocks.foldl (fun results block => dictInsert results block.id (blockVal parse context block)) []

/-- A single-quote character, written via its code point. -/
def sq : String := String.mk [Char.ofNat 39]

/-- `valor.replace(chr(39), backslash-quote)`: the quote escaping of
`build_condition_from_dict`. -/
def escapeQuotes (v : String) : String :=
  String.mk (v.toList.foldr (fun c acc => if c = Char.ofNat 39 then '\\' :: Char.ofNat 39 :: acc else c :: acc) [])

mutual

/-- The values stored in a structured-condition dict: scalars, a nested
dict (under `not`) or a list of dicts (under `and`/`or`). -/
inductive CondVal where
  | prim (v : PyVal)
  | dict (d : CondDict)
  | dlist (ds : List CondDict)

/-- A structured-condition dict, insertion ordered. -/
inductive CondDict where
  | mk (entries : List (String × CondVal))

end

/-- The entry list of a condition dict. -/
def CondDict.entries : CondDict → List (String × CondVal)
  | .mk es => es

/-- Python `k in d`. -/
def CondDict.hasKey (d : CondDict) (k : String) : Bool :=
  d.entries.any (fun p => p.1 = k)

/-- Python `d[k]` (first binding; dict keys are unique). -/
def CondDict.get (d : CondDict) (k : String) : Option CondVal :=
  match d.entries.find? (fun p => p.1 = k) with
  | some p => some p.2
  | Option.none => Option.none

mutual

/-- Modelled from CPython: `str(v)` for the scalar values that can appear
in a condition dict. -/
def pyStr (v : PyVal) : String :=
  match v with
  | .none => "None"
  | .bool b => if b then "True" else "False"
  | .int n => toString n
  | .str s => s
  | .list xs => "[" ++ pyReprJoin xs ++ "]"
  | .tuple xs => "(" ++ pyReprJoin xs ++ ")"

/-- Modelled from CPython: `repr(v)`, used by `str` on container elements.
(String repr is simplified to plain quoting; no claim renders containers.) -/
def pyRepr (v : PyVal) : String :=
  match v with
  | .str s => sq ++ s ++ sq
  | .none => "None"
  | .bool b => if b then "True" else "False"
  | .int n => toString n
  | .list xs => "[" ++ pyReprJoin xs ++ "]"
  | .tuple xs => "(" ++ pyReprJoin xs ++ ")"
termination_by structural v

def pyReprJoin (xs : List PyVal) : String :=
  match xs with
  | [] => ""
  | [x] => pyRepr x
  | x :: xs => pyRepr x ++ ", " ++ pyReprJoin xs
termination_by structural xs

end

/-- `str(value)` for a dict value as the f-strings of
`build_condition_from_dict` use it.  A nested dict or dict list under
`campo`/`igual`/... never occurs in the configuration and is rendered
with a placeholder. -/
def strOfCondVal : CondVal → String
  | .prim v => pyStr v
  | .dict _ => "dict"
  | .dlist _ => "list"

/-- `sep.join(xs)`. -/
def joinSep (sep : String) : List String → String
  | [] => ""
  | [x] => x
  | x :: xs => x ++ sep ++ joinSep sep xs

mutual

/-- `build_condition_from_dict(cond_dict)` of `conditions_engine.py`.

Returns `Option.none` when CPython would raise: the `and`/`or` branches
iterate their value and recurse, so a non-list-of-dicts value under
`and`/`or`, or a non-dict under `not`, raises `TypeError` (uncaught).
All other paths return a string; unrecognised shapes fall back to the
literal expression `True`.

The recursion of the source is bounded by the nesting depth of the dict;
`fuel` makes that bound explicit (any `fuel` larger than the nesting
depth yields the CPython result, and depth zero never occurs). -/
def build_condition_from_dict (fuel : Nat) (d : CondDict) : Option String :=
  match fuel with
  | 0 => Option.none
  | fuel + 1 =>
  if d.hasKey "campo" && d.hasKey "igual" then
    let campo := strOfCondVal ((d.get "campo").getD (.prim .none))
    match (d.get "igual").getD (.prim .none) with
    | .prim (.str v) => some (campo ++ " == " ++ sq ++ escapeQuotes v ++ sq)
    | other => some (campo ++ " == " ++ strOfCondVal other)
  else if d.hasKey "campo" && d.hasKey "no_igual" then
    let campo := strOfCondVal ((d.get "campo").getD (.prim .none))
    match (d.get "no_igual").getD (.prim .none) with
    | .prim (.str v) => some (campo ++ " != " ++ sq ++ escapeQuotes v ++ sq)
    | other => some (campo ++ " != " ++ strOfCondVal other)
  else if d.hasKey "campo" && d.hasKey "mayor" then
    let campo := strOfCondVal ((d.get "campo").getD (.prim .none))
    some (campo ++ " > " ++ strOfCondVal ((d.get "mayor").getD (.prim .none)))
  else if d.hasKey "campo" && d.hasKey "menor" then
    let campo := strOfCondVal ((d.get "campo").getD (.prim .none))
    some (campo ++ " < " ++ strOfCondVal ((d.get "menor").getD (.prim .none)))
  else if d.hasKey "and" then
    match d.get "and" with
    | some (.dlist ds) => do
      let subs ← buildList fuel ds
      pure ("(" ++ joinSep " and " subs ++ ")")
    | _ => Option.none
  else if d.hasKey "or" then
    match d.get "or" with
    | some (.dlist ds) => do
      let subs ← buildList fuel ds
      pure ("(" ++ joinSep " or " subs ++ ")")
    | _ => Option.none
  else if d.hasKey "not" then
    match d.get "not" with
    | some (.dict sub) => do
      let s ← build_condition_from_dict fuel sub
      pure ("(not " ++ s ++ ")")
    | _ => Option.none
  else
    some "True"
termination_by structural fuel

def buildList (fuel : Nat) (ds : List CondDict) : Option (List String) :=
  match fuel with
  | 0 => Option.none
  | fuel + 1 =>
    match ds with
    | [] => some []
    | d :: rest => do pure ((← build_condition_from_dict fuel d) :: (← buildList fuel rest))
termination_by structural fuel

end

end CondEngine

namespace TablesEngine

open CondEngine (PyVal pyEq)
open PyStr

/-- Column type tags of `schema_models.TableColumn`. -/
inductive ColTipo where
  | texto | numero | fecha | lista
deriving Repr, DecidableEq

/-- `schema_models.TableColumn`. -/
structure TableColumn where
  id : String
  nombre : String
  tipo : ColTipo
  requerido : Bool
  opciones : Option (List String)

/-- `schema_models.TableDefinition`. -/
structure TableDefinition where
  id : String
  nombre : String
  columnas : List TableColumn
  min_filas : Int
  max_filas : Option Int

/-- A submitted row: a Python dict keyed by column id. -/
abbrev Row := List (String × PyVal)

/-- Python `column.id in row`. -/
def rowHasKey (row : Row) (k : String) : Bool :=
  row.any (fun p => p.1 = k)

/-- Python `row[column.id]` (keys are unique in a dict). -/
def rowGet (row : Row) (k : String) : PyVal :=
  match row.find? (fun p => p.1 = k) with
  | some p => p.2
  | Option.none => .none

/-- Modelled from CPython: whether `float(s)` succeeds on a string: a
stripped optional sign followed by a decimal literal with optional
fraction and exponent, or an infinity/nan spelling.  (Digit-group
underscores are accepted by CPython and omitted here; no claim uses
them.) -/
def floatStrOk (cs : List Char) : Bool :=
  let t := pyStrip cs
  let t := match t with
    | c :: r => if c = '+' || c = '-' then r else t
    | [] => t
  let lower := t.map Char.toLower
  if lower = "inf".toList || lower = "infinity".toList || lower = "nan".toList then true
  else
    let d1 := t.takeWhile Char.isDigit
    let r1 := t.dropWhile Char.isDigit
    let expOk : List Char → Bool := fun r =>
      match r with
      | [] => true
      | e :: r2 =>
        if e = 'e' || e = 'E' then
          let r3 := match r2 with
            | c :: r3 => if c = '+' || c = '-' then r3 else r2
            | [] => r2
          ¬ (r3.takeWhile Char.isDigit).isEmpty && (r3.dropWhile Char.isDigit).isEmpty
        else false
    match r1 with
    | '.' :: r2 =>
      let d2 := r2.takeWhile Char.isDigit
      let r3 := r2.dropWhile Char.isDigit
      (¬ d1.isEmpty || ¬ d2.isEmpty) && expOk r3
    | _ => ¬ d1.isEmpty && expOk r1

/-- Modelled from CPython: whether `float(value)` succeeds (numbers and
booleans convert; parseable strings convert; anything else raises). -/
def floatParsable : PyVal → Bool
  | .int _ => true
  | .bool _ => true
  | .str s => floatStrOk s.toList
  | _ => false

/-- `validate_column_value(column, value, row_idx)` of `tables_engine.py`.
(The literal quote characters that the source puts around interpolated
names are omitted from the message strings; only the identity and the
count of messages matter to the claims.) -/
def validate_column_value (column : TableColumn) (value : PyVal) : Option String :=
  if column.tipo = .numero then
    if floatParsable value then Option.none
    else some ("Columna " ++ column.nombre ++ " debe ser numerica, pero es " ++
      CondEngine.pyStr value)
  else if column.tipo = .lista then
    match column.opciones with
    | some opts =>
      if ¬ opts.isEmpty && ¬ opts.any (fun o => pyEq value (.str o)) then
        some ("Columna " ++ column.nombre ++ " debe ser una de las opciones, pero es " ++
          CondEngine.pyStr value)
      else Option.none
    | Option.none => Option.none
  else Option.none

/-- The `for column in table_def.columnas` loop of `validate_table_row`. -/
def validateRowCols (tableId : String) (rowIdx : Nat) (row : Row) :
    List TableColumn → List String
  | [] => []
  | column :: rest =>
    if column.requerido && ¬ rowHasKey row column.id then
      ("Tabla " ++ tableId ++ ", fila " ++ toString (rowIdx + 1) ++
        ": falta columna requerida " ++ column.nombre) ::
        validateRowCols tableId rowIdx row rest
    else if ¬ rowHasKey row column.id then
      validateRowCols tableId rowIdx row rest
    else
      match validate_column_value column (rowGet row column.id) with
      | some e =>
        ("Tabla " ++ tableId ++ ", fila " ++ toString (rowIdx + 1) ++ ": " ++ e) ::
          validateRowCols tableId rowIdx row rest
      | Option.none => validateRowCols tableId rowIdx row rest

/-- `validate_table_row(table_def, row, row_idx)`. -/
def validate_table_row (table_def : TableDefinition) (row : Row) (rowIdx : Nat) : List String :=
  validateRowCols table_def.id rowIdx row table_def.columnas

/-- The per-row accumulation loop of `validate_table_data`. -/
def validateRows (table_def : TableDefinition) (rows : List Row) (startIdx : Nat) : List String :=
  match rows with
  | [] => []
  | row :: rest =>
    validate_table_row table_def row startIdx ++ validateRows table_def rest (startIdx + 1)

/-- The minimum-rows error message of `validate_table_data`. -/
def minRowsMsg (table_def : TableDefinition) (numRows : Nat) : String :=
  "Tabla " ++ table_def.id ++ ": se requieren al menos " ++ toString table_def.min_filas ++
    " filas, pero solo hay " ++ toString numRows

/-- The maximum-rows error message of `validate_table_data`. -/
def maxRowsMsg (table_def : TableDefinition) (m : Int) (numRows : Nat) : String :=
  "Tabla " ++ table_def.id ++ ": maximo " ++ toString m ++
    " filas permitidas, pero hay " ++ toString numRows

/-- The row-count bound errors of `validate_table_data`.  Python truthiness
guards the maximum check (`if table_def.max_filas and ...`), so an absent
or zero maximum is never checked. -/
def boundErrors (table_def : TableDefinition) (numRows : Nat) : List String :=
  (if (numRows : Int) < table_def.min_filas then [minRowsMsg table_def numRows] else []) ++
  (match table_def.max_filas with
   | some m =>
     if m ≠ 0 && (numRows : Int) > m then [maxRowsMsg table_def m numRows] else []
   | Option.none => [])

/-- `validate_table_data(table_def, data)`: the accumulated
`(is_valid, errors)` pair.  Total by construction (the source never
raises). -/
def validate_table_data (table_def : TableDefinition) (data : List Row) :
    Bool × List String :=
  let errors := boundErrors table_def data.length ++ validateRows table_def data 0
  (errors.isEmpty, errors)

end TablesEngine

namespace XmlEngine

open PyStr

/-- A `<w:t>` text node of a paragraph: its text and whether it carries the
space-preserve attribute. -/
structure TNode where
  text : List Char
  preserve : Bool
deriving Repr, DecidableEq

/-- A paragraph, reduced to its ordered `<w:t>` nodes (the only structure
`replace_variables` reads or writes). -/
abbrev Paragraph := List TNode

/-- The document body as seen by `replace_variables`: its paragraphs. -/
abbrev Document := List Paragraph

/-- `_get_paragraph_text`: the concatenation of the text nodes in document
order. -/
def getParagraphText (p : Paragraph) : List Char :=
  (p.map TNode.text).flatten

/-- The space-significance test of `_set_text_with_preserve`: the text
starts or ends with a space or contains a newline or tab. -/
def needsPreserve (newText : List Char) : Bool :=
  newText.head? = some ' ' || newText.getLast? = some ' ' ||
    newText.contains '\n' || newText.contains '\t'

/-- `_set_text_with_preserve`: store the text and set the space-preserve
attribute exactly when the text is space-significant. -/
def setTextWithPreserve (newText : List Char) : TNode :=
  { text := newText, preserve := needsPreserve newText }

/-- The node-update loop of `_replace_marker_in_paragraph_xml`: every node
is revisited with its precomputed offsets (`start`, `endP`); nodes outside
the marker span are kept, the node containing the marker start receives
the replacement value, and nodes inside the span are truncated or
emptied.  The boolean mirrors the `inserted` flag. -/
def spliceGo (ms me : Nat) (value : List Char) (start : Nat) : Paragraph → (Paragraph × Bool)
  | [] => ([], false)
  | n :: rest =>
    let endP := start + n.text.length
    let (rest2, ins2) := spliceGo ms me value endP rest
    if endP ≤ ms || start ≥ me then (n :: rest2, ins2)
    else
      let before := if start < ms && ms < endP then n.text.take (ms - start) else []
      let after := if start < me && me < endP then n.text.drop (me - start) else []
      if start ≤ ms && me ≤ endP then (setTextWithPreserve (before ++ value ++ after) :: rest2, true)
      else if start ≤ ms && ms < endP then (setTextWithPreserve (before ++ value) :: rest2, true)
      else if start < me && me ≤ endP then (setTextWithPreserve after :: rest2, ins2)
      else (setTextWithPreserve [] :: rest2, ins2)

/-- The `if not inserted` fallback of `_replace_marker_in_paragraph_xml`:
append the value to the first node whose (old) end offset exceeds the
marker start.  `old` carries the original nodes for the offsets, `cur`
the updated ones. -/
def fallbackAppend (ms : Nat) (value : List Char) : Nat → Paragraph → Paragraph → Paragraph
  | _, [], cur => cur
  | _, _ :: _, [] => []
  | start, n :: rest, m :: cur =>
    if start + n.text.length > ms then setTextWithPreserve (m.text ++ value) :: cur
    else m :: fallbackAppend ms value (start + n.text.length) rest cur

/-- `_replace_marker_in_paragraph_xml(para, marker, value)`: replace the
first occurrence of `marker` in the concatenated paragraph text, splicing
`value` into the overlapping nodes. -/
def replaceMarkerInParagraphXml (marker value : List Char) (p : Paragraph) : Paragraph :=
  match p with
  | [] => p
  | _ :: _ =>
    let full := getParagraphText p
    match firstIdx marker full with
    | Option.none => p
    | some ms =>
      let res := spliceGo ms (ms + marker.length) value 0 p
      if res.2 then res.1
      else fallbackAppend ms value 0 p res.1

/-- The `while marker in para_text` loop shared by `replace_variables` and
`_remove_marker_from_paragraph`.  The loop need not terminate (the
replacement value may reintroduce the marker), so it is fuel-indexed:
`none` models a run that does not complete within `fuel` iterations. -/
def replaceMarkerLoop (fuel : Nat) (marker value : List Char) (p : Paragraph) :
    Option Paragraph :=
  match fuel with
  | 0 => Option.none
  | fuel + 1 =>
    if containsSub marker (getParagraphText p) then
      replaceMarkerLoop fuel marker value (replaceMarkerInParagraphXml marker value p)
    else some p

/-- A context value handed to the engine: Python `None` or a string.  (The
engine stringifies other values; the claims only involve these two.) -/
abbrev CtxVal := Option String

/-- The `context_filtered` comprehension of `replace_variables`: drop
entries whose value is `None`, empty, or whitespace-only. -/
def ctxFiltered (context : List (String × CtxVal)) : List (String × String) :=
  context.filterMap (fun kv =>
    match kv.2 with
    | some v =>
      if v ≠ "" && ¬ (pyStrip v.toList).isEmpty then some (kv.1, v) else Option.none
    | Option.none => Option.none)

/-- The `for marker, value in context_filtered.items()` loop over one
paragraph. -/
def processParaMarkers (fuel : Nat) (pairs : List (String × String)) (p : Paragraph) :
    Option Paragraph :=
  match pairs with
  | [] => some p
  | (marker, value) :: rest => do
    processParaMarkers fuel rest (← replaceMarkerLoop fuel marker.toList value.toList p)

/-- Per-paragraph body of `replace_variables`: paragraphs whose
concatenated text is empty are skipped. -/
def processPara (fuel : Nat) (pairs : List (String × String)) (p : Paragraph) :
    Option Paragraph :=
  if (getParagraphText p).isEmpty then some p else processParaMarkers fuel pairs p

/-- The `for para in paragraphs` loop of `replace_variables`. -/
def processDoc (fuel : Nat) (pairs : List (String × String)) : Document → Option Document
  | [] => some []
  | p :: rest => do pure ((← processPara fuel pairs p) :: (← processDoc fuel pairs rest))

/-- `XMLWordEngineAdapter.replace_variables(context)`: filter the context,
then rewrite every paragraph, replacing each filtered marker until none
of its occurrences remain.  `none` models a run in which some rewrite
loop fails to terminate within `fuel` iterations. -/
def replace_variables (fuel : Nat) (context : List (String × CtxVal)) (doc : Document) :
    Option Document :=
  if (ctxFiltered context).isEmpty then some doc
  else processDoc fuel (ctxFiltered context) doc

end XmlEngine

namespace WordEngine

/-- The `clean_context` comprehension of `_render_with_jinja2`
(word_engine.py lines 377-381): drop reserved (underscore-prefixed) keys
and map `None` values to the empty string.  Its input is
`clean_context_formatting(context)`, which rewrites values but keeps the
key set. -/
def jinjaCleanContext (formatted : List (String × Option String)) : List (String × String) :=
  (formatted.filter (fun kv => ¬ PyStr.charsPrefix "_".toList kv.1.toList)).map
    (fun kv => (kv.1, kv.2.getD ""))

end WordEngine

namespace XmlTree

open PyStr

/-- An XML element of `document.xml`: tag, own text (only `<w:t>` nodes
carry text in the modelled documents) and child elements.  Namespace
prefixes and attributes other than text are not needed by the fragment
splice. -/
inductive Elem where
  | mk (tag : String) (text : List Char) (children : List Elem)

def Elem.tag : Elem → String
  | .mk t _ _ => t

def Elem.text : Elem → List Char
  | .mk _ t _ => t

def Elem.children : Elem → List Elem
  | .mk _ _ c => c

mutual

/-- The texts of the `<w:t>` descendants of the listed elements, in
document (preorder) order: `para.findall(".//w:t")` flattened. -/
def tTextsList (es : List Elem) : List (List Char) :=
  match es with
  | [] => []
  | c :: rest => tTextsOne c ++ tTextsList rest
termination_by structural es

def tTextsOne (e : Elem) : List (List Char) :=
  match e with
  | .mk tag text children => (if tag = "t" then [text] else []) ++ tTextsList children
termination_by structural e

end

/-- The `<w:t>` texts strictly below an element. -/
def tTextsBelow (e : Elem) : List (List Char) :=
  tTextsList e.children

/-- `_get_paragraph_text` on a tree paragraph. -/
def getParagraphTextEl (p : Elem) : List Char :=
  (tTextsBelow p).flatten

mutual

/-- Write updated `<w:t>` texts back into the tree, in document order. -/
def writeTList (es : List Elem) (texts : List (List Char)) : List Elem × List (List Char) :=
  match es with
  | [] => ([], texts)
  | c :: rest =>
    let (c2, texts2) := writeTOne c texts
    let (rest2, texts3) := writeTList rest texts2
    (c2 :: rest2, texts3)
termination_by structural es

def writeTOne (e : Elem) (texts : List (List Char)) : Elem × List (List Char) :=
  match e with
  | .mk tag text children =>
    if tag = "t" then
      match texts with
      | t :: ts =>
        let (children2, ts2) := writeTList children ts
        (.mk tag t children2, ts2)
      | [] => (.mk tag text children, [])
    else
      let (children2, ts2) := writeTList children texts
      (.mk tag text children2, ts2)
termination_by structural e

end

/-- One `_replace_marker_in_paragraph_xml` call on a tree paragraph: the
source operates on the flat `findall(".//w:t")` node list, so the tree
version extracts the texts, runs the flat splice, and writes the results
back in order (the splice preserves the node count). -/
def elemParaSpliceOnce (marker value : List Char) (p : Elem) : Elem :=
  let nodes := (tTextsBelow p).map (fun t => XmlEngine.TNode.mk t false)
  let nodes2 := XmlEngine.replaceMarkerInParagraphXml marker value nodes
  (writeTOne p (nodes2.map XmlEngine.TNode.text)).1

/-- `_remove_marker_from_paragraph` on a tree paragraph: guarded no-op for
an empty marker, else the fuel-indexed `while marker in para_text` loop
replacing with the empty string. -/
def removeMarkerFromParagraphEl (fuel : Nat) (marker : List Char) (p : Elem) : Option Elem :=
  match fuel with
  | 0 => Option.none
  | fuel + 1 =>
    if marker.isEmpty then some p
    else if containsSub marker (getParagraphTextEl p) then
      removeMarkerFromParagraphEl fuel marker (elemParaSpliceOnce marker [] p)
    else some p

mutual

/-- The number of `sectPr` elements in the listed trees (the elements
themselves included). -/
def countSectPrList (es : List Elem) : Nat :=
  match es with
  | [] => 0
  | c :: rest => countSectPrOne c + countSectPrList rest
termination_by structural es

def countSectPrOne (e : Elem) : Nat :=
  match e with
  | .mk tag _ children => (if tag = "sectPr" then 1 else 0) + countSectPrList children
termination_by structural e

end

mutual

/-- The net effect of `_remove_section_properties_from_element`: every
`sectPr` strictly below the element is detached (the source removes the
`pPr/sectPr` of a paragraph and then every `.//sectPr` descendant from
its parent; together that deletes exactly the proper-descendant `sectPr`
subtrees).  The element itself is never removed — the source cannot
detach the node it was handed. -/
def stripSectPrBelow (e : Elem) : Elem :=
  match e with
  | .mk tag text children => .mk tag text (stripSectPrList children)
termination_by structural e

def stripSectPrList (es : List Elem) : List Elem :=
  match es with
  | [] => []
  | c :: rest =>
    if c.tag = "sectPr" then stripSectPrList rest
    else stripSectPrBelow c :: stripSectPrList rest
termination_by structural es

end

/-- `_paragraph_has_section_break_xml`: a `pPr` child holding a `sectPr`. -/
def paragraphHasSectPrEl (p : Elem) : Bool :=
  match p.children.find? (fun c => c.tag = "pPr") with
  | some pPr => pPr.children.any (fun c => c.tag = "sectPr")
  | Option.none => false

/-- `_insert_conditional_block` after the fragment body has been read:
find the first paragraph containing the marker, deep-copy every
fragment body element, strip section properties below each copy, insert
the copies after the marker paragraph, remove the marker, and drop the
marker paragraph only when it became empty and carries no section
properties.  (The source searches `.//w:p`; the embedding keeps the host
paragraphs at body level, which is where the claim inputs live.)
`none` models a marker-removal loop that fails to complete in `fuel`
steps; a missing marker paragraph leaves the body unchanged, like the
source. -/
def insertConditionalBlock (fuel : Nat) (marker : List Char) (blockElements : List Elem)
    (bodyChildren : List Elem) : Option (List Elem) :=
  match bodyChildren.findIdx? (fun e => e.tag = "p" && containsSub marker (getParagraphTextEl e)) with
  | Option.none => some bodyChildren
  | some i =>
    match bodyChildren[i]? with
    | Option.none => some bodyChildren
    | some target => do
      let cleaned := blockElements.map stripSectPrBelow
      let target2 ← removeMarkerFromParagraphEl fuel marker target
      let keep := ¬ (pyStrip (getParagraphTextEl target2)).isEmpty || paragraphHasSectPrEl target2
      pure (bodyChildren.take i ++ (if keep then [target2] else []) ++ cleaned ++
        bodyChildren.drop (i + 1))

end XmlTree

namespace Toc

open PyStr

/-- An in-paragraph item, in document order: a `<w:t>` text node, a
`<w:br w:type="page"/>` element, another kind of `<w:br>`, or a
`<w:lastRenderedPageBreak/>` hint. -/
inductive PItem where
  | tnode (text : List Char) (preserve : Bool)
  | brPage
  | brOther
  | lastRendered
deriving Repr, DecidableEq

/-- A direct-child paragraph of the body as `process_table_of_contents`
sees it: its ordered items and, when a `pPr/sectPr` is present, the value
of the section `type` attribute (`Option.none` inside = attribute
absent). -/
structure TocPara where
  items : List PItem
  sect : Option (Option String)
deriving Repr, DecidableEq

/-- `_get_paragraph_text`: concatenated text-node contents. -/
def paraText (p : TocPara) : List Char :=
  (p.items.map (fun i =>
    match i with
    | .tnode t _ => t
    | _ => [])).flatten

def isBrPage : PItem → Bool
  | .brPage => true
  | _ => false

def isLastRendered : PItem → Bool
  | .lastRendered => true
  | _ => false

def isTnode : PItem → Bool
  | .tnode _ _ => true
  | _ => false

/-- `_paragraph_has_section_page_break`: a section change whose type is
absent or one of the page-forcing kinds. -/
def sectForcesPage (p : TocPara) : Bool :=
  match p.sect with
  | Option.none => false
  | some t =>
    t = Option.none || t = some "nextPage" || t = some "evenPage" || t = some "oddPage"

/-- `_has_page_break_xml`: a page-forcing section change, a rendered
page-break hint, or an explicit `<w:br w:type="page"/>`. -/
def hasPageBreakXml (p : TocPara) : Bool :=
  sectForcesPage p || p.items.any isLastRendered || p.items.any isBrPage

/-- `_insert_page_break_at_end_of_paragraph`. -/
def appendBrEnd (p : TocPara) : TocPara :=
  { p with items := p.items ++ [.brPage] }

/-- `_insert_page_break_at_start_of_paragraph`. -/
def prependBrStart (p : TocPara) : TocPara :=
  { p with items := .brPage :: p.items }

/-- The body paragraphs with their snapshot positions (`all_paras`
indices); positions double as stable identities across the phases. -/
abbrev Doc := List (Nat × TocPara)

def getById (doc : Doc) (i : Nat) : Option TocPara :=
  (doc.find? (fun q => q.1 = i)).map (fun q => q.2)

def updateById (doc : Doc) (i : Nat) (f : TocPara → TocPara) : Doc :=
  doc.map (fun q => if q.1 = i then (q.1, f q.2) else q)

def removeById (doc : Doc) (i : Nat) : Doc :=
  doc.filter (fun q => q.1 ≠ i)

/-- The `<<Indice>>` / `<<fin Indice>>` scan: the start index is
overwritten at every later occurrence, and the loop breaks at the first
end marker. -/
def findTocBoundsGo : List (Nat × TocPara) → Option Nat → Option Nat × Option Nat
  | [], s => (s, Option.none)
  | (i, p) :: rest, s =>
    if containsSub "<<Indice>>".toList (paraText p) then findTocBoundsGo rest (some i)
    else if containsSub "<<fin Indice>>".toList (paraText p) then (s, some i)
    else findTocBoundsGo rest s

def findTocBounds (doc : Doc) : Option Nat × Option Nat :=
  findTocBoundsGo doc Option.none

/-- Recognise `<<digits>>` at the head of the character list, returning
the digits and the remainder. -/
def matchNumMarker : List Char → Option (List Char × List Char)
  | '<' :: '<' :: rest =>
    let ds := rest.takeWhile Char.isDigit
    match rest.dropWhile Char.isDigit with
    | '>' :: '>' :: r3 => if ds.isEmpty then Option.none else some (ds, r3)
    | _ => Option.none
  | _ => Option.none

/-- The regex sub removing every `<<digits>>` occurrence, fuel-indexed
for structural recursion (the wrapper supplies adequate fuel). -/
def stripNumMarkersF (fuel : Nat) (cs : List Char) : List Char :=
  match fuel with
  | 0 => cs
  | fuel + 1 =>
    match cs with
    | [] => []
    | c :: rest =>
      match matchNumMarker (c :: rest) with
      | some (_, r3) => stripNumMarkersF fuel r3
      | Option.none => c :: stripNumMarkersF fuel rest

/-- `re.sub("<<digits>>", "", text)`. -/
def stripNumMarkers (cs : List Char) : List Char :=
  stripNumMarkersF (cs.length + 1) cs

/-- The first `<<digits>>` occurrence in the text (regex search). -/
def findNumMarkerF (fuel : Nat) (cs : List Char) : Option (List Char) :=
  match fuel with
  | 0 => Option.none
  | fuel + 1 =>
    match cs with
    | [] => Option.none
    | c :: rest =>
      match matchNumMarker (c :: rest) with
      | some (ds, _) => some ds
      | Option.none => findNumMarkerF fuel rest

def findNumMarker (cs : List Char) : Option (List Char) :=
  findNumMarkerF (cs.length + 1) cs

/-- The marker string `<<digits>>`. -/
def mkNumMarker (ds : List Char) : List Char :=
  '<' :: '<' :: ds ++ ['>', '>']

/-- A table-of-contents entry: snapshot index, title (text with numeric
markers removed, stripped), and marker digits. -/
structure Entry where
  idx : Nat
  title : List Char
  digits : List Char
deriving Repr, DecidableEq

/-- The entry-extraction loop over the paragraphs strictly between the
index markers: non-blank paragraphs whose text holds a numeric marker. -/
def extractEntries (doc : Doc) (s e : Nat) : List Entry :=
  (doc.filter (fun q => s < q.1 && q.1 < e)).filterMap (fun q =>
    let text := paraText q.2
    if (pyStrip text).isEmpty then Option.none
    else
      match findNumMarker text with
      | some ds => some ⟨q.1, pyStrip (stripNumMarkers text), ds⟩
      | Option.none => Option.none)

/-- The first snapshot index after `after` whose paragraph currently
contains the marker. -/
def findMarkerIdAfter (doc : Doc) (after : Nat) (marker : List Char) : Option Nat :=
  (doc.find? (fun q => after < q.1 && containsSub marker (paraText q.2))).map (fun q => q.1)

/-- `_insert_page_break_before_marker_xml`: at the first paragraph after
the index holding the marker, check it and its predecessor for a page
break and insert one at the end of the predecessor when both lack one. -/
def insertPageBreakBeforeMarker (marker : List Char) (tocEnd : Nat) (doc : Doc) : Doc :=
  match findMarkerIdAfter doc tocEnd marker with
  | Option.none => doc
  | some i =>
    let hasBr := ((getById doc i).map hasPageBreakXml).getD false
    let hasBr2 := hasBr ||
      (if 0 < i then ((getById doc (i - 1)).map hasPageBreakXml).getD false else false)
    if hasBr2 then doc
    else if 0 < i then updateById doc (i - 1) appendBrEnd
    else updateById doc i prependBrStart

/-- `_calculate_page_count_until_idx`: one plus the number of paragraphs
up to and including `endIdx` that contain a page break. -/
def calculatePageCountUntilIdx (doc : Doc) (endIdx : Nat) : Nat :=
  1 + (doc.filter (fun q => q.1 ≤ endIdx)).countP (fun q => hasPageBreakXml q.2)

/-- The scan loop of `_find_marker_page_number_xml`: walk the paragraphs
after the start index, counting page-break paragraphs (the paragraph of
the marker included) until the marker is found. -/
def fmpnGo (marker : List Char) : List (Nat × TocPara) → Nat → Option Nat
  | [], _ => Option.none
  | (_, p) :: rest, pc =>
    let pc2 := if hasPageBreakXml p then pc + 1 else pc
    if containsSub marker (paraText p) then some pc2 else fmpnGo marker rest pc2

/-- `_find_marker_page_number_xml(marker, start_search_idx, all_paras)`. -/
def findMarkerPageNumberXml (marker : List Char) (startIdx : Nat) (doc : Doc) : Option Nat :=
  fmpnGo marker (doc.filter (fun q => startIdx < q.1)) (calculatePageCountUntilIdx doc startIdx)

/-- Decimal digits of a page number (fuel-indexed division loop). -/
def natDigitsF (fuel n : Nat) : List Char :=
  match fuel with
  | 0 => []
  | fuel + 1 =>
    if n < 10 then [Char.ofNat (48 + n)]
    else natDigitsF fuel (n / 10) ++ [Char.ofNat (48 + n % 10)]

def natDigits (n : Nat) : List Char :=
  natDigitsF (n + 1) n

/-- `re.sub(trailing dots-or-spaces followed by digits, "", title)`: the
match, when any, is the maximal trailing digit run plus the maximal
dot/space run before it. -/
def stripTrailingDotsNum (t : List Char) : List Char :=
  let r := t.reverse
  let ds := r.takeWhile Char.isDigit
  let r2 := r.dropWhile Char.isDigit
  let ws := r2.takeWhile (fun c => c = '.' || pyIsSpace c)
  let r3 := r2.dropWhile (fun c => c = '.' || pyIsSpace c)
  if ds.isEmpty || ws.isEmpty then t else r3.reverse

/-- The replacement-text walk of `_set_paragraph_text`: the first text
node receives the new text, later text nodes are removed, and every
other item is kept in place. -/
def setTextItemsGo (newText : List Char) : List PItem → Bool → List PItem
  | [], _ => []
  | .tnode _ _ :: rest, false =>
    .tnode newText (XmlEngine.needsPreserve newText) :: setTextItemsGo newText rest true
  | .tnode _ _ :: rest, true => setTextItemsGo newText rest true
  | other :: rest, seen => other :: setTextItemsGo newText rest seen

/-- `_set_paragraph_text(para, new_text)` (when the paragraph has no text
node the source appends one to its first run; the embedding appends the
node at the end — entry paragraphs always carry text nodes). -/
def setParagraphTextToc (newText : List Char) (p : TocPara) : TocPara :=
  if p.items.any isTnode then { p with items := setTextItemsGo newText p.items false }
  else { p with items := p.items ++ [.tnode newText (XmlEngine.needsPreserve newText)] }

/-- The flat `<w:t>` node list of a paragraph. -/
def tocParaTNodes (p : TocPara) : List XmlEngine.TNode :=
  p.items.filterMap (fun i =>
    match i with
    | .tnode t pr => some ⟨t, pr⟩
    | _ => Option.none)

/-- Write updated text nodes back over the items, in order. -/
def tocParaWriteT : List PItem → List XmlEngine.TNode → List PItem
  | [], _ => []
  | .tnode t pr :: rest, [] => .tnode t pr :: tocParaWriteT rest []
  | .tnode _ _ :: rest, n :: ns => .tnode n.text n.preserve :: tocParaWriteT rest ns
  | other :: rest, ns => other :: tocParaWriteT rest ns

/-- One `_replace_marker_in_paragraph_xml` call on a `TocPara` (the source
works on the flat text-node list; node count is preserved). -/
def tocParaSpliceOnce (marker value : List Char) (p : TocPara) : TocPara :=
  { p with items :=
      tocParaWriteT p.items (XmlEngine.replaceMarkerInParagraphXml marker value (tocParaTNodes p)) }

/-- `_remove_marker_from_paragraph` on a `TocPara` (fuel-indexed loop). -/
def tocRemoveMarkerLoop (fuel : Nat) (marker : List Char) (p : TocPara) : Option TocPara :=
  match fuel with
  | 0 => Option.none
  | fuel + 1 =>
    if marker.isEmpty then some p
    else if containsSub marker (paraText p) then
      tocRemoveMarkerLoop fuel marker (tocParaSpliceOnce marker [] p)
    else some p

/-- Phase 3 of `process_table_of_contents`: rewrite each entry line as
`title dots page`, or drop the entry when its marker got no page. -/
def phase3Step (m2p : List (List Char × Nat)) (doc : Doc) (ent : Entry) : Doc :=
  match m2p.find? (fun q => q.1 = ent.digits) with
  | some q =>
    let pg := q.2
    let clean := pyStrip (stripTrailingDotsNum ent.title)
    let dotsLen := (max 3 (80 - (clean.length : Int) - (natDigits pg).length - 2)).toNat
    let newText := clean ++ [' '] ++ List.replicate dotsLen '.' ++ [' '] ++ natDigits pg
    updateById doc ent.idx (setParagraphTextToc newText)
  | Option.none => removeById doc ent.idx

/-- Phase 4: remove every numeric marker from every text node still in the
body (the direct assignment of the source leaves the preserve attribute
untouched). -/
def stripNumAllT (doc : Doc) : Doc :=
  doc.map (fun q =>
    (q.1, { q.2 with items := q.2.items.map (fun i =>
      match i with
      | .tnode t pr => .tnode (stripNumMarkers t) pr
      | other => other) }))

/-- Remove a marker from the paragraph at `i` and delete the paragraph
when its remaining text is blank (the `<<Indice>>`/`<<fin Indice>>`
cleanup). -/
def cleanupMarkerPara (fuel : Nat) (doc : Doc) (i : Nat) (marker : List Char) : Option Doc :=
  match getById doc i with
  | Option.none => some doc
  | some p => do
    let p2 ← tocRemoveMarkerLoop fuel marker p
    let doc2 := updateById doc i (fun _ => p2)
    pure (if (pyStrip (paraText p2)).isEmpty then removeById doc2 i else doc2)

/-- Marker removal without paragraph deletion (the no-entries early
return). -/
def cleanupMarkerParaKeep (fuel : Nat) (doc : Doc) (i : Nat) (marker : List Char) : Option Doc :=
  match getById doc i with
  | Option.none => some doc
  | some p => do
    let p2 ← tocRemoveMarkerLoop fuel marker p
    pure (updateById doc i (fun _ => p2))

/-- The per-entry page map of phase 2 (`marker_to_page`), keyed by the
marker digits. -/
def tocMarkerToPage (entries : List Entry) (tocEnd : Nat) (doc : Doc) : List (List Char × Nat) :=
  entries.filterMap (fun ent =>
    (findMarkerPageNumberXml (mkNumMarker ent.digits) tocEnd doc).map (fun pg => (ent.digits, pg)))

/-- `process_table_of_contents` over the body paragraphs.  Returns the
final body with snapshot identities, or `none` when a marker-removal loop
fails to complete within `fuel` iterations. -/
def process_table_of_contents (fuel : Nat) (ps : List TocPara) : Option Doc :=
  let doc := ps.enum
  match findTocBounds doc with
  | (some s, some e) =>
    let entries := extractEntries doc s e
    if entries.isEmpty then do
      let d1 ← cleanupMarkerParaKeep fuel doc s "<<Indice>>".toList
      cleanupMarkerParaKeep fuel d1 e "<<fin Indice>>".toList
    else do
      let doc1 := entries.foldl
        (fun d ent => insertPageBreakBeforeMarker (mkNumMarker ent.digits) e d) doc
      let m2p := tocMarkerToPage entries e doc1
      let doc2 := entries.foldl (phase3Step m2p) doc1
      let doc3 := stripNumAllT doc2
      let doc4 ← cleanupMarkerPara fuel doc3 s "<<Indice>>".toList
      let doc5 ← cleanupMarkerPara fuel doc4 e "<<fin Indice>>".toList
      pure (if 0 < s then updateById doc5 (s - 1) appendBrEnd else doc5)
  | _ => some doc

end Toc

namespace Toc

/-- The number of explicit `<w:br w:type="page"/>` elements of a
paragraph (the quantity the specification counts, as opposed to the
per-paragraph boolean the code counts). -/
def brPageCount (p : TocPara) : Nat :=
  p.items.countP isBrPage

/-- Count the explicit page-break elements whose position in the
paragraph precedes the character offset `ms` of the marker. -/
def brsBeforeGo (ms : Nat) : List PItem → Nat → Nat
  | [], _ => 0
  | .tnode t _ :: rest, acc => brsBeforeGo ms rest (acc + t.length)
  | .brPage :: rest, acc => (if acc ≤ ms then 1 else 0) + brsBeforeGo ms rest acc
  | _ :: rest, acc => brsBeforeGo ms rest acc

/-- Modelled from the specification wording: the number of explicit page
breaks of a paragraph that precede the first occurrence of the marker in
its text. -/
def brsBeforeMarkerInPara (marker : List Char) (p : TocPara) : Nat :=
  match PyStr.firstIdx marker (paraText p) with
  | some ms => brsBeforeGo ms p.items 0
  | Option.none => 0

end Toc

section ConcreteInputs

open CondEngine TablesEngine XmlEngine XmlTree Toc

/-- The first-match scenario block of the specification: rules
`x==1 -> A`, `True -> B`. -/
def c1Block : BlockDefinition :=
  ⟨"opinion", [⟨"x==1", "A"⟩, ⟨"True", "B"⟩]⟩

/-- A block none of whose rules matches in the scenario context. -/
def c1BlockNone : BlockDefinition :=
  ⟨"vacio", [⟨"x==2", "C"⟩]⟩

def c1Ctx : Ctx := [("x", .int 1)]

/-- The `ast.parse` result of the expression `True or foo()`: a boolean
`or` whose second operand is a `Call` node (rejected by
`generic_visit`). -/
def c2OrCallExpr : Expr :=
  .boolop .orOp [.const (.bool true), .disallowed "Call"]

/-- The dict `campo = f, igual = v`. -/
def condCampoIgual (f v : String) : CondDict :=
  .mk [("campo", .prim (.str f)), ("igual", .prim (.str v))]

/-- The shape dispatch of `build_condition_from_dict`: the disjunction of
the recognised key combinations, in source order. -/
def recognizedShape (d : CondDict) : Bool :=
  (d.hasKey "campo" && d.hasKey "igual") || (d.hasKey "campo" && d.hasKey "no_igual") ||
    (d.hasKey "campo" && d.hasKey "mayor") || (d.hasKey "campo" && d.hasKey "menor") ||
    d.hasKey "and" || d.hasKey "or" || d.hasKey "not"

/-- A single backslash, as a string value. -/
def bsl : String := String.mk ['\\']

/-- The scenario table of the specification: minimum two rows, one text
column, no maximum. -/
def c9Table : TableDefinition :=
  ⟨"t1", "Tabla uno", [⟨"c1", "Col", .texto, false, Option.none⟩], 2, Option.none⟩

def c9Row : TablesEngine.Row := [("c1", .str "hola")]

/-- A degenerate table definition with a negative maximum row count. -/
def c9NegTable : TableDefinition :=
  ⟨"t2", "Tabla dos", [], 2, some (-1)⟩

/-- A paragraph holding the markers of both context entries. -/
def c3Doc : XmlEngine.Document := [[⟨"<<a>> <<b>>".toList, false⟩]]

/-- A context whose second value reintroduces the first marker. -/
def c3Ctx : List (String × XmlEngine.CtxVal) :=
  [("<<a>>", some "hello"), ("<<b>>", some "<<a>>")]

/-- A paragraph whose marker is split across two runs. -/
def c3SplitDoc : XmlEngine.Document :=
  [[⟨"Hola <<n".toList, false⟩, ⟨"om>> y <<nom>>!".toList, false⟩]]

def c3SplitCtx : List (String × XmlEngine.CtxVal) := [("<<nom>>", some "Maria")]

/-- A paragraph carrying a reserved (underscore-prefixed) key as literal
text. -/
def c6Doc : XmlEngine.Document := [[⟨"see _cfg_tab here".toList, false⟩]]

def c6Ctx : List (String × XmlEngine.CtxVal) := [("_cfg_tab", some "SECRET")]

/-- A context whose first entry has a `None` value and whose second
marker overlaps the first. -/
def c10Ctx : List (String × XmlEngine.CtxVal) := [("<<a>>", Option.none), ("a", some "X")]

def c10Doc : XmlEngine.Document := [[⟨"<<a>>".toList, false⟩]]

/-- A paragraph in which no non-blank context marker of `c10Ctx` occurs. -/
def c10NoMarkerDoc : XmlEngine.Document := [[⟨"<<b>> texto".toList, false⟩]]

/-- A host body: one paragraph containing the splice marker. -/
def c4Host : List Elem :=
  [.mk "p" [] [.mk "r" [] [.mk "t" "<<X>>".toList []]]]

/-- A fragment body in the standard Word layout: a paragraph (here with
its own paragraph-level section properties) followed by the body-level
trailing `sectPr`. -/
def c4Frag : List Elem :=
  [.mk "p" [] [.mk "pPr" [] [.mk "sectPr" [] []], .mk "r" [] [.mk "t" "hola".toList []]],
   .mk "sectPr" [] [.mk "cols" [] []]]

/-- The body produced by the splice: the cleaned paragraph copy and the
fragment body-level `sectPr`, which the code inserts wholesale (the
emptied host paragraph is deleted). -/
def c4Result : List Elem :=
  [.mk "p" [] [.mk "pPr" [] [], .mk "r" [] [.mk "t" "hola".toList []]],
   .mk "sectPr" [] [.mk "cols" [] []]]

/-- The body paragraph of the page-number counterexample: two explicit
page breaks, both preceding the entry marker. -/
def c5BodyPara : TocPara :=
  ⟨[.brPage, .brPage, .tnode "Cap 1 <<1>>".toList false], Option.none⟩

/-- A document whose only index entry points at a paragraph preceded by
two explicit page breaks. -/
def c5Paras : List TocPara :=
  [⟨[.tnode "<<Indice>>".toList false], Option.none⟩,
   ⟨[.tnode "Cap 1 <<1>>".toList false], Option.none⟩,
   ⟨[.tnode "<<fin Indice>>".toList false], Option.none⟩,
   c5BodyPara]

/-- The index line the process writes for the counterexample entry. -/
def c5WrittenText : List Char :=
  "Cap".toList ++ [' '] ++ List.replicate 74 '.' ++ [' '] ++ natDigits 2

/-- The final body of the counterexample run. -/
def c5Result : Toc.Doc :=
  [(1, ⟨[.tnode c5WrittenText false], Option.none⟩),
   (3, ⟨[.brPage, .brPage, .tnode "Cap 1 ".toList false], Option.none⟩)]

/-- A document whose index entry marker never occurs after the index. -/
def c5DroppedParas : List TocPara :=
  [⟨[.tnode "<<Indice>>".toList false], Option.none⟩,
   ⟨[.tnode "Seccion perdida <<7>>".toList false], Option.none⟩,
   ⟨[.tnode "Cap 1 <<1>>".toList false], Option.none⟩,
   ⟨[.tnode "<<fin Indice>>".toList false], Option.none⟩,
   ⟨[.brPage, .tnode "Cap 1 <<1>>".toList false], Option.none⟩]

/-- The final body of the dropped-entry run: the entry whose marker is
never found after the index is removed rather than left dangling. -/
def c5DroppedResult : Toc.Doc :=
  [(2, ⟨[.tnode c5WrittenText false], Option.none⟩),
   (4, ⟨[.brPage, .tnode "Cap 1 ".toList false], Option.none⟩)]

end ConcreteInputs

section Claims

open CondEngine TablesEngine PyStr

theorem bindOkE {α β ε : Type} (a : α) (f : α → Except ε β) :
    (Except.ok a >>= f) = f a := rfl

theorem bindErrE {α β ε : Type} (e : ε) (f : α → Except ε β) :
    ((Except.error e : Except ε α) >>= f) = Except.error e := rfl

theorem mapOkE {α β ε : Type} (f : α → β) (a : α) :
    (f <$> (Except.ok a : Except ε α)) = Except.ok (f a) := rfl

theorem mapErrE {α β ε : Type} (f : α → β) (e : ε) :
    (f <$> (Except.error e : Except ε α)) = Except.error e := rfl

theorem pureE {α ε : Type} (a : α) : (pure a : Except ε α) = Except.ok a := rfl

/-- Claim C2 counterexample: the claim says an expression containing a
disallowed construct evaluates to false, but Python short-circuit
evaluation can skip the construct: `True or foo()` contains a function
call, yet `evaluate_condition` returns true on it. -/
theorem c2_short_circuit_counterexample :
    containsDisallowed c2OrCallExpr = true ∧
    evaluate_condition "True or foo()" (some c2OrCallExpr) [] = true := by
  constructor
  · rfl
  · rfl

/-- Claim C2 (amended): `evaluate_condition` is total (the source catches
every exception); a blank condition evaluates true; a parse failure
evaluates false; and an evaluation that reaches a disallowed construct —
or any other evaluation error — yields false.  An expression containing
a disallowed construct that short-circuit evaluation never reaches
evaluates normally (see the counterexample). -/
theorem c2_fail_closed_amended :
    (∀ (condition : String) (parsed : Option Expr) (context : Ctx),
      condition.toList.all pyIsSpace = true →
      evaluate_condition condition parsed context = true) ∧
    (∀ (condition : String) (context : Ctx),
      condition.toList.all pyIsSpace = false →
      evaluate_condition condition Option.none context = false) ∧
    (∀ (condition : String) (e : Expr) (context : Ctx) (err : PyError),
      condition.toList.all pyIsSpace = false →
      visit context e = .error err →
      evaluate_condition condition (some e) context = false) := by
  refine ⟨?_, ?_, ?_⟩
  · intro condition parsed context h
    unfold evaluate_condition
    rw [h]
    simp
  · intro condition context h
    unfold evaluate_condition
    rw [h]
    simp
  · intro condition e context err h hv
    unfold evaluate_condition
    rw [h]
    simp [hv]

/-- Claim C2 witness: the three amended branches at concrete inputs — a
whitespace condition, a malformed condition, and a condition whose
evaluation reaches a function call (a disallowed construct). -/
theorem c2_fail_closed_amended_witness :
    evaluate_condition "  " (some c2OrCallExpr) [] = true ∧
    evaluate_condition "x ==" Option.none [] = false ∧
    evaluate_condition "foo()" (some (.disallowed "Call")) [] = false :=
  ⟨c2_fail_closed_amended.1 "  " (some c2OrCallExpr) [] (by decide),
   c2_fail_closed_amended.2.1 "x ==" [] (by decide),
   c2_fail_closed_amended.2.2 "foo()" (.disallowed "Call") [] .valueError (by decide) rfl⟩

/-- Claim C7: chained comparisons evaluate conjunctively — for every
context and operand expressions, `a < b < c` evaluates exactly like
`(a < b) and (b < c)` (errors included: the middle operand is pure, so
its duplicate evaluation agrees), and in particular
`evaluate_condition "1 < 2 < 3" {}` is true while
`evaluate_condition "1 < 3 < 2" {}` is false. -/
theorem c7_chained_comparison :
    (∀ (context : Ctx) (a b c : Expr),
      visit context (.compare a [(.lt, b), (.lt, c)]) =
        visit context (.boolop .andOp [.compare a [(.lt, b)], .compare b [(.lt, c)]])) ∧
    evaluate_condition "1 < 2 < 3" (pyParse "1 < 2 < 3") [] = true ∧
    evaluate_condition "1 < 3 < 2" (pyParse "1 < 3 < 2") [] = false := by
  refine ⟨?_, by decide, by decide⟩
  intro context a b c
  simp only [visit, visitAll, visitCompare]
  cases ha : visit context a with
  | error e => simp [ha, bindOkE, bindErrE, mapOkE, mapErrE, pureE]
  | ok lv =>
    cases hb : visit context b with
    | error e => simp [ha, hb, bindOkE, bindErrE, mapOkE, mapErrE, pureE]
    | ok rv =>
      cases hcmp : applyCmp .lt lv rv with
      | error e => simp [ha, hb, hcmp, bindOkE, bindErrE, mapOkE, mapErrE, pureE]
      | ok cb =>
        cases cb with
        | false => simp [ha, hb, hcmp, pyTruthy, bindOkE, bindErrE, mapOkE, mapErrE, pureE]
        | true =>
          cases hc : visit context c with
          | error e =>
            simp [ha, hb, hcmp, hc, pyTruthy, bindOkE, bindErrE, mapOkE, mapErrE, pureE]
          | ok rv2 =>
            cases hcmp2 : applyCmp .lt rv rv2 with
            | error e =>
              simp [ha, hb, hcmp, hc, hcmp2, pyTruthy, bindOkE, bindErrE, mapOkE, mapErrE, pureE]
            | ok cb2 =>
              cases cb2 <;>
                simp [ha, hb, hcmp, hc, hcmp2, pyTruthy, bindOkE, bindErrE, mapOkE, mapErrE, pureE]

theorem dictLookup_dictInsert_self (m : List (String × String)) (k v : String) :
    CondEngine.dictLookup (CondEngine.dictInsert m k v) k = some v := by
  induction m with
  | nil => simp [CondEngine.dictInsert, CondEngine.dictLookup]
  | cons p rest ih =>
    obtain ⟨k2, v2⟩ := p
    by_cases h : k2 = k
    · simp [CondEngine.dictInsert, h, CondEngine.dictLookup]
    · simp [CondEngine.dictInsert, h, CondEngine.dictLookup, ih]

theorem dictLookup_dictInsert_other (m : List (String × String)) (k v k2 : String)
    (h : k ≠ k2) :
    CondEngine.dictLookup (CondEngine.dictInsert m k v) k2 = CondEngine.dictLookup m k2 := by
  induction m with
  | nil => simp [CondEngine.dictInsert, CondEngine.dictLookup, h]
  | cons p rest ih =>
    obtain ⟨k3, v3⟩ := p
    by_cases h3 : k3 = k
    · subst h3
      simp [CondEngine.dictInsert, CondEngine.dictLookup, h]
    · simp [CondEngine.dictInsert, h3, CondEngine.dictLookup, ih]

theorem fold_blocks_preserves_key (parse : String → Option Expr) (context : Ctx) :
    ∀ (blocks : List BlockDefinition) (acc : List (String × String)) (k v0 : String),
    dictLookup acc k = some v0 →
    ∃ v, dictLookup
      (blocks.foldl (fun results block => dictInsert results block.id (blockVal parse context block)) acc)
      k = some v := by
  intro blocks
  induction blocks with
  | nil => intro acc k v0 h; exact ⟨v0, h⟩
  | cons b bs ih =>
    intro acc k v0 h
    simp only [List.foldl_cons]
    by_cases hk : b.id = k
    · subst hk
      exact ih _ _ (blockVal parse context b) (dictLookup_dictInsert_self ..)
    · refine ih _ _ v0 ?_
      rw [dictLookup_dictInsert_other _ _ _ _ hk]
      exact h

theorem fold_blocks_mem_key (parse : String → Option Expr) (context : Ctx) :
    ∀ (blocks : List BlockDefinition) (acc : List (String × String)) (b : BlockDefinition),
    b ∈ blocks →
    ∃ v, dictLookup
      (blocks.foldl (fun results block => dictInsert results block.id (blockVal parse context block)) acc)
      b.id = some v := by
  intro blocks
  induction blocks with
  | nil => intro acc b h; simp at h
  | cons b2 bs ih =>
    intro acc b h
    simp only [List.foldl_cons]
    rcases List.mem_cons.mp h with h1 | h1
    · subst h1
      exact fold_blocks_preserves_key parse context bs _ b.id (blockVal parse context b)
        (dictLookup_dictInsert_self ..)
    · exact ih _ b h1

theorem fold_blocks_values (parse : String → Option Expr) (context : Ctx) :
    ∀ (blocks : List BlockDefinition) (acc : List (String × String)) (k v : String),
    dictLookup
      (blocks.foldl (fun results block => dictInsert results block.id (blockVal parse context block)) acc)
      k = some v →
    (∃ b, b ∈ blocks ∧ b.id = k ∧ v = blockVal parse context b) ∨ dictLookup acc k = some v := by
  intro blocks
  induction blocks with
  | nil => intro acc k v h; exact Or.inr h
  | cons b bs ih =>
    intro acc k v h
    simp only [List.foldl_cons] at h
    rcases ih _ k v h with h1 | h1
    · obtain ⟨b2, hmem, hid, hval⟩ := h1
      exact Or.inl ⟨b2, List.mem_cons_of_mem _ hmem, hid, hval⟩
    · by_cases hk : b.id = k
      · subst hk
        rw [dictLookup_dictInsert_self] at h1
        exact Or.inl ⟨b, List.mem_cons_self .., rfl, (Option.some.injEq ..).mp h1.symm⟩
      · rw [dictLookup_dictInsert_other _ _ _ _ hk] at h1
        exact Or.inr h1

theorem evaluateRules_some_first_match (parse : String → Option Expr) (context : Ctx) :
    ∀ (rules : List BlockRule) (t : String),
    evaluateRules parse context rules = some t →
    ∃ pre r post, rules = pre ++ r :: post ∧
      (∀ r2 ∈ pre, evaluate_condition r2.cuando (parse r2.cuando) context = false) ∧
      evaluate_condition r.cuando (parse r.cuando) context = true ∧ t = r.plantilla := by
  intro rules
  induction rules with
  | nil => intro t h; simp [evaluateRules] at h
  | cons r rs ih =>
    intro t h
    by_cases hc : evaluate_condition r.cuando (parse r.cuando) context = true
    · rw [evaluateRules, if_pos hc] at h
      refine ⟨[], r, rs, rfl, by simp, hc, ?_⟩
      exact ((Option.some.injEq ..).mp h).symm
    · have hc2 : evaluate_condition r.cuando (parse r.cuando) context = false :=
        Bool.not_eq_true _ ▸ Bool.eq_false_iff.mpr hc
      rw [evaluateRules, if_neg (by simp [hc2])] at h
      obtain ⟨pre, rr, post, hsplit, hpre, hcond, ht⟩ := ih t h
      refine ⟨r :: pre, rr, post, by simp [hsplit], ?_, hcond, ht⟩
      intro r2 h2
      rcases List.mem_cons.mp h2 with h3 | h3
      · subst h3; exact hc2
      · exact hpre r2 h3

theorem evaluateRules_none_all_false (parse : String → Option Expr) (context : Ctx) :
    ∀ (rules : List BlockRule),
    evaluateRules parse context rules = Option.none →
    ∀ r ∈ rules, evaluate_condition r.cuando (parse r.cuando) context = false := by
  intro rules
  induction rules with
  | nil => intro h r hr; simp at hr
  | cons r rs ih =>
    intro h r2 h2
    by_cases hc : evaluate_condition r.cuando (parse r.cuando) context = true
    · rw [evaluateRules, if_pos hc] at h
      exact absurd h (by simp)
    · have hc2 : evaluate_condition r.cuando (parse r.cuando) context = false :=
        Bool.not_eq_true _ ▸ Bool.eq_false_iff.mpr hc
      rw [evaluateRules, if_neg (by simp [hc2])] at h
      rcases List.mem_cons.mp h2 with h3 | h3
      · subst h3; exact hc2
      · exact ih h r2 h3

/-- Claim C1: `evaluate_block` iterates the rules of the block in declared
order and returns the template of the first rule whose condition
evaluates true, or none when no rule matches; `evaluate_all_blocks`
yields a mapping in which every declared block id is a key, bound to the
selected template or to the empty string when no rule matched (the key is
never omitted). -/
theorem c1_first_match_wins (parse : String → Option Expr) (context : Ctx) :
    (∀ (block : BlockDefinition) (t : String),
      evaluate_block parse block context = some t →
      ∃ pre r post, block.reglas = pre ++ r :: post ∧
        (∀ r2 ∈ pre, evaluate_condition r2.cuando (parse r2.cuando) context = false) ∧
        evaluate_condition r.cuando (parse r.cuando) context = true ∧ t = r.plantilla) ∧
    (∀ block : BlockDefinition,
      evaluate_block parse block context = Option.none →
      ∀ r ∈ block.reglas, evaluate_condition r.cuando (parse r.cuando) context = false) ∧
    (∀ (blocks : List BlockDefinition) (b : BlockDefinition), b ∈ blocks →
      ∃ v, dictLookup (evaluate_all_blocks parse blocks context) b.id = some v) ∧
    (∀ (blocks : List BlockDefinition) (k v : String),
      dictLookup (evaluate_all_blocks parse blocks context) k = some v →
      ∃ b, b ∈ blocks ∧ b.id = k ∧ v = blockVal parse context b) := by
  refine ⟨?_, ?_, ?_, ?_⟩
  · intro block t h
    exact evaluateRules_some_first_match parse context block.reglas t h
  · intro block h
    exact evaluateRules_none_all_false parse context block.reglas h
  · intro blocks b hb
    exact fold_blocks_mem_key parse context blocks [] b hb
  · intro blocks k v h
    rcases fold_blocks_values parse context blocks [] k v h with h1 | h1
    · exact h1
    · simp [dictLookup] at h1

/-- Claim C1 witness: the first-match scenario of the specification —
rules `x==1 -> A`, `True -> B` with `x = 1` select `A`; a block with no
matching rule is still a key of the result, bound to the empty string. -/
theorem c1_first_match_wins_witness :
    (∃ pre r post, c1Block.reglas = pre ++ r :: post ∧
      (∀ r2 ∈ pre, evaluate_condition r2.cuando (pyParse r2.cuando) c1Ctx = false) ∧
      evaluate_condition r.cuando (pyParse r.cuando) c1Ctx = true ∧ "A" = r.plantilla) ∧
    (∃ v, dictLookup (evaluate_all_blocks pyParse [c1Block, c1BlockNone] c1Ctx)
      c1BlockNone.id = some v) ∧
    (∃ b, b ∈ [c1Block, c1BlockNone] ∧ b.id = "vacio" ∧ "" = blockVal pyParse c1Ctx b) :=
  ⟨(c1_first_match_wins pyParse c1Ctx).1 c1Block "A" rfl,
   (c1_first_match_wins pyParse c1Ctx).2.2.1 [c1Block, c1BlockNone] c1BlockNone (by simp),
   (c1_first_match_wins pyParse c1Ctx).2.2.2 [c1Block, c1BlockNone] "vacio" "" rfl⟩

/-- Claim C8 counterexample: the built expression is not equivalent to
the dict for every string value and field name.  (a) A backslash value
breaks the quote escaping — the built string is malformed, so the
condition evaluates false even in a context binding the field to the
value.  (b) The field name `True` parses as the boolean constant, not a
context variable.  (c) A field name with a space is not an identifier —
parse failure, always false. -/
theorem c8_builder_counterexample :
    build_condition_from_dict 1 (condCampoIgual "x" bsl) =
      some ("x == " ++ sq ++ bsl ++ sq) ∧
    pyParse ("x == " ++ sq ++ bsl ++ sq) = Option.none ∧
    evaluate_condition ("x == " ++ sq ++ bsl ++ sq) (pyParse ("x == " ++ sq ++ bsl ++ sq))
      [("x", .str bsl)] = false ∧
    ctxLookup [("x", .str bsl)] "x" = some (.str bsl) ∧
    build_condition_from_dict 1 (condCampoIgual "True" "yes") =
      some ("True == " ++ sq ++ "yes" ++ sq) ∧
    evaluate_condition ("True == " ++ sq ++ "yes" ++ sq)
      (pyParse ("True == " ++ sq ++ "yes" ++ sq)) [("True", .str "yes")] = false ∧
    ctxLookup [("True", .str "yes")] "True" = some (.str "yes") ∧
    build_condition_from_dict 1 (condCampoIgual "a b" "v") =
      some ("a b == " ++ sq ++ "v" ++ sq) ∧
    evaluate_condition ("a b == " ++ sq ++ "v" ++ sq)
      (pyParse ("a b == " ++ sq ++ "v" ++ sq)) [("a b", .str "v")] = false :=
  ⟨rfl, rfl, rfl, rfl, rfl, rfl, rfl, rfl, rfl⟩

theorem evaluate_condition_some_eval (condition : String) (e : Expr) (context : Ctx)
    (h : condition.toList.all pyIsSpace = false) :
    evaluate_condition condition (some e) context =
      (match visit context e with
       | .ok v => pyTruthy v
       | .error _ => false) := by
  unfold evaluate_condition
  rw [h]
  simp

/-- Claim C8 (amended): for every field name `f` and string value `v`,
the `campo`/`igual` shape builds the expression
`f == quote(escape(v))quote`; when `f` is an identifier other than the
constants `True`/`False`/`None` and the built string parses to the
comparison of the variable `f` with the string literal `v` (which
CPython does whenever `v` is free of backslashes and newlines — quote
escaping round-trips), the built expression evaluates true exactly in
those contexts binding `f` to the string `v`.  Every dict matching no
recognised shape builds the literal expression `True`, which evaluates
true in every context. -/
theorem c8_builder_amended :
    (∀ f v : String,
      build_condition_from_dict 1 (condCampoIgual f v) =
        some (f ++ " == " ++ sq ++ escapeQuotes v ++ sq)) ∧
    (∀ (f v : String) (context : Ctx) (parsed : Option Expr),
      f ≠ "True" → f ≠ "False" → f ≠ "None" →
      parsed = some (.compare (.name f) [(.eq, .const (.str v))]) →
      (evaluate_condition (f ++ " == " ++ sq ++ escapeQuotes v ++ sq) parsed context = true ↔
        ctxLookup context f = some (.str v))) ∧
    (∀ (fuel : Nat) (d : CondDict), recognizedShape d = false →
      build_condition_from_dict (fuel + 1) d = some "True") ∧
    (∀ context : Ctx, evaluate_condition "True" (pyParse "True") context = true) := by
  refine ⟨?_, ?_, ?_, ?_⟩
  · intro f v
    rfl
  · intro f v context parsed h1 h2 h3 hp
    subst hp
    have hblank : (f ++ " == " ++ sq ++ escapeQuotes v ++ sq).toList.all pyIsSpace = false := by
      rw [List.all_eq_false]
      refine ⟨'=', ?_, by decide⟩
      simp [String.toList, String.data_append]
    rw [evaluate_condition_some_eval _ _ _ hblank]
    have hvn : visitName context f =
        (match ctxLookup context f with
         | some w => w
         | Option.none => PyVal.none) := by
      unfold visitName
      rw [if_neg h1, if_neg h2, if_neg h3]
    cases hpe : pyEq (visitName context f) (.str v) with
    | true =>
      have hv : visit context (.compare (.name f) [(.eq, .const (.str v))]) =
          .ok (.bool true) := by
        simp [visit, visitCompare, applyCmp, hpe, bindOkE, pureE, mapOkE]
      rw [hv]
      simp only [pyTruthy]
      rw [hvn] at hpe
      cases hl : ctxLookup context f with
      | none => rw [hl] at hpe; simp [pyEq] at hpe
      | some w =>
        rw [hl] at hpe
        cases w <;> simp_all [pyEq]
    | false =>
      have hv : visit context (.compare (.name f) [(.eq, .const (.str v))]) =
          .ok (.bool false) := by
        simp [visit, visitCompare, applyCmp, hpe, bindOkE, pureE, mapOkE]
      rw [hv]
      simp only [pyTruthy]
      rw [hvn] at hpe
      cases hl : ctxLookup context f with
      | none => simp
      | some w =>
        rw [hl] at hpe
        cases w <;> simp_all [pyEq]
  · intro fuel d h
    simp only [recognizedShape, Bool.or_eq_false_iff] at h
    obtain ⟨⟨⟨⟨⟨⟨h1, h2⟩, h3⟩, h4⟩, h5⟩, h6⟩, h7⟩ := h
    simp only [build_condition_from_dict]
    rw [h1, h2, h3, h4, h5, h6, h7]
    rfl
  · intro context
    rfl

/-- Claim C8 witness: the scenario field of the specification builds the
escaped comparison; with the actual parser model, the built expression
for `x == favorable` evaluates true exactly when the context binds `x`
to that string; an unrecognised dict builds the literal `True`, true in
every context. -/
theorem c8_builder_amended_witness :
    build_condition_from_dict 1 (condCampoIgual "tipo_opinion" "favorable") =
      some ("tipo_opinion" ++ " == " ++ sq ++ escapeQuotes "favorable" ++ sq) ∧
    (evaluate_condition ("x" ++ " == " ++ sq ++ escapeQuotes "favorable" ++ sq)
        (pyParse ("x" ++ " == " ++ sq ++ escapeQuotes "favorable" ++ sq))
        [("x", .str "favorable")] = true ↔
      ctxLookup [("x", .str "favorable")] "x" = some (.str "favorable")) ∧
    build_condition_from_dict 1 (.mk [("otra", .prim (.str "cosa"))]) = some "True" ∧
    evaluate_condition "True" (pyParse "True") [("x", .int 5)] = true :=
  ⟨c8_builder_amended.1 "tipo_opinion" "favorable",
   c8_builder_amended.2.1 "x" "favorable" [("x", .str "favorable")] _
     (by decide) (by decide) (by decide) rfl,
   c8_builder_amended.2.2.1 0 (.mk [("otra", .prim (.str "cosa"))]) (by decide),
   c8_builder_amended.2.2.2 [("x", .int 5)]⟩

/-- Claim C9 counterexample: with a (degenerate but constructible) table
definition whose maximum row count is negative, one conforming row
produces two error messages — the minimum-rows error and the
maximum-rows error — not exactly one as claimed. -/
theorem c9_negative_max_counterexample :
    c9NegTable.min_filas = 2 ∧
    validate_table_row c9NegTable [] 0 = [] ∧
    (validate_table_data c9NegTable [[]]).1 = false ∧
    (validate_table_data c9NegTable [[]]).2.length = 2 :=
  ⟨rfl, rfl, rfl, rfl⟩

/-- Claim C9 (amended): `validate_table_data` is total (never raises) and
returns the accumulated `(is_valid, errors)` pair with
`is_valid = errors.isEmpty`; for a table definition with `min_filas = 2`
whose `max_filas` is absent or non-negative, a single row whose cells
individually conform yields `is_valid = false` and exactly the
minimum-rows error. -/
theorem c9_validate_table_amended :
    (∀ (td : TableDefinition) (data : List TablesEngine.Row),
      (validate_table_data td data).1 = (validate_table_data td data).2.isEmpty) ∧
    (∀ (td : TableDefinition) (row : TablesEngine.Row),
      td.min_filas = 2 →
      (td.max_filas = Option.none ∨ ∃ m, td.max_filas = some m ∧ 0 ≤ m) →
      validate_table_row td row 0 = [] →
      (validate_table_data td [row]).1 = false ∧
      (validate_table_data td [row]).2 = [minRowsMsg td 1]) := by
  constructor
  · intro td data
    rfl
  · intro td row hmin hmax hrow
    have hrows : validateRows td [row] 0 = [] := by
      unfold validateRows validateRows
      simp [hrow]
    have hbound : boundErrors td 1 = [minRowsMsg td 1] := by
      unfold boundErrors
      rw [hmin]
      rcases hmax with h | ⟨m, hm, hm0⟩
      · rw [h]
        norm_num
      · rw [hm]
        have : (m ≠ 0 && decide ((1 : Int) > m)) = false := by
          by_cases h0 : m = 0
          · simp [h0]
          · simp [h0]
            omega
        simp [this]
        omega
    have herr : (validate_table_data td [row]).2 = [minRowsMsg td 1] := by
      unfold validate_table_data
      simp [hrows, hbound]
    refine ⟨?_, herr⟩
    have h1 : (validate_table_data td [row]).1 = (validate_table_data td [row]).2.isEmpty := rfl
    rw [h1, herr]
    rfl

/-- Claim C9 witness: the scenario table (`min_filas = 2`, one text
column) with one conforming row — invalid, with exactly the minimum-rows
message. -/
theorem c9_validate_table_amended_witness :
    (validate_table_data c9Table [c9Row]).1 = (validate_table_data c9Table [c9Row]).2.isEmpty ∧
    (validate_table_data c9Table [c9Row]).1 = false ∧
    (validate_table_data c9Table [c9Row]).2 = [minRowsMsg c9Table 1] :=
  ⟨c9_validate_table_amended.1 c9Table [c9Row],
   (c9_validate_table_amended.2 c9Table c9Row rfl (Or.inl rfl) rfl).1,
   (c9_validate_table_amended.2 c9Table c9Row rfl (Or.inl rfl) rfl).2⟩

theorem containsSub_nil_of_ne (mt : List Char) (h : mt ≠ []) :
    containsSub mt [] = false := by
  cases mt with
  | nil => exact absurd rfl h
  | cons c t => rfl

theorem replaceMarkerLoop_some_no_marker :
    ∀ (fuel : Nat) (marker value : List Char) (p q : XmlEngine.Paragraph),
    XmlEngine.replaceMarkerLoop fuel marker value p = some q →
    containsSub marker (XmlEngine.getParagraphText q) = false := by
  intro fuel
  induction fuel with
  | zero =>
    intro marker value p q h
    exact Option.noConfusion h
  | succ n ih =>
    intro marker value p q h
    unfold XmlEngine.replaceMarkerLoop at h
    cases hc : containsSub marker (XmlEngine.getParagraphText p) with
    | true =>
      rw [hc, if_pos rfl] at h
      exact ih marker value _ q h
    | false =>
      rw [hc, if_neg Bool.false_ne_true] at h
      cases Option.some.inj h
      exact hc

theorem processDoc_mem :
    ∀ (doc doc2 : XmlEngine.Document) (fuel : Nat) (pairs : List (String × String)),
    XmlEngine.processDoc fuel pairs doc = some doc2 →
    ∀ p2 ∈ doc2, ∃ p ∈ doc, XmlEngine.processPara fuel pairs p = some p2 := by
  intro doc
  induction doc with
  | nil =>
    intro doc2 fuel pairs h p2 hp2
    have h2 : ([] : XmlEngine.Document) = doc2 := Option.some.inj h
    subst h2
    exact absurd hp2 (List.not_mem_nil p2)
  | cons p rest ih =>
    intro doc2 fuel pairs h p2 hp2
    unfold XmlEngine.processDoc at h
    cases hq : XmlEngine.processPara fuel pairs p with
    | none => rw [hq] at h; exact Option.noConfusion h
    | some q =>
      rw [hq] at h
      cases hr : XmlEngine.processDoc fuel pairs rest with
      | none => rw [hr] at h; exact Option.noConfusion h
      | some rest2 =>
        rw [hr] at h
        have h3 : (q :: rest2 : XmlEngine.Document) = doc2 := Option.some.inj h
        subst h3
        rcases List.mem_cons.mp hp2 with h1 | h1
        · subst h1
          exact ⟨p, List.mem_cons_self .., hq⟩
        · obtain ⟨p0, hm, hp0⟩ := ih rest2 fuel pairs hr p2 h1
          exact ⟨p0, List.mem_cons_of_mem _ hm, hp0⟩

/-- Claim C3 counterexample: with context `<<a>> -> hello`,
`<<b>> -> <<a>>`, the phase completes but the later substitution has
reintroduced the earlier marker: searching the final paragraph text for
`<<a>>` finds an occurrence. -/
theorem c3_marker_reintroduction_counterexample :
    XmlEngine.ctxFiltered c3Ctx = [("<<a>>", "hello"), ("<<b>>", "<<a>>")] ∧
    XmlEngine.replace_variables 10 c3Ctx c3Doc = some [[⟨"hello <<a>>".toList, false⟩]] ∧
    containsSub "<<a>>".toList
      (XmlEngine.getParagraphText [⟨"hello <<a>>".toList, false⟩]) = true :=
  ⟨rfl, rfl, rfl⟩

/-- Claim C3 (amended): each per-marker rewrite loop, whenever it
completes, leaves zero occurrences of its marker in the concatenated
paragraph text (however many runs the marker spanned); consequently,
when the filtered context holds a single (non-empty) marker and
`replace_variables` completes, no paragraph retains the marker.  With
several markers a later substituted value can reintroduce an earlier
marker (see the counterexample), so the guarantee is per loop exit, not
global. -/
theorem c3_no_remaining_marker_amended :
    (∀ (fuel : Nat) (marker value : List Char) (p q : XmlEngine.Paragraph),
      XmlEngine.replaceMarkerLoop fuel marker value p = some q →
      containsSub marker (XmlEngine.getParagraphText q) = false) ∧
    (∀ (fuel : Nat) (context : List (String × XmlEngine.CtxVal)) (m v : String)
        (doc doc2 : XmlEngine.Document),
      XmlEngine.ctxFiltered context = [(m, v)] → m.toList ≠ [] →
      XmlEngine.replace_variables fuel context doc = some doc2 →
      ∀ p ∈ doc2, containsSub m.toList (XmlEngine.getParagraphText p) = false) := by
  refine ⟨replaceMarkerLoop_some_no_marker, ?_⟩
  intro fuel context m v doc doc2 hf hm h p2 hp2
  unfold XmlEngine.replace_variables at h
  rw [hf] at h
  simp at h
  obtain ⟨p, hpmem, hpp⟩ := processDoc_mem doc doc2 fuel [(m, v)] h p2 hp2
  unfold XmlEngine.processPara at hpp
  cases he : (XmlEngine.getParagraphText p).isEmpty with
  | true =>
    rw [he, if_pos rfl] at hpp
    cases Option.some.inj hpp
    rw [List.isEmpty_iff.mp he]
    exact containsSub_nil_of_ne _ hm
  | false =>
    rw [he, if_neg Bool.false_ne_true] at hpp
    unfold XmlEngine.processParaMarkers at hpp
    cases hl : XmlEngine.replaceMarkerLoop fuel m.toList v.toList p with
    | none => rw [hl] at hpp; simp at hpp
    | some q =>
      rw [hl] at hpp
      cases Option.some.inj hpp
      exact replaceMarkerLoop_some_no_marker fuel m.toList v.toList p p2 hl

/-- Claim C3 witness: the single-marker context `<<nom>> -> Maria` over a
paragraph in which the marker spans two runs and occurs twice — after
the completed phase, zero occurrences remain. -/
theorem c3_no_remaining_marker_amended_witness :
    containsSub "<<nom>>".toList
      (XmlEngine.getParagraphText
        [⟨"Hola Maria".toList, false⟩, ⟨" y Maria!".toList, true⟩]) = false :=
  c3_no_remaining_marker_amended.2 10 c3SplitCtx "<<nom>>" "Maria" c3SplitDoc
    [[⟨"Hola Maria".toList, false⟩, ⟨" y Maria!".toList, true⟩]] rfl (by decide) rfl
    [⟨"Hola Maria".toList, false⟩, ⟨" y Maria!".toList, true⟩] (by simp)

/-- Claim C10 counterexample: the entry `<<a>> -> None` is blank and is
not substituted, yet the marker does not remain: the non-blank entry
`a -> X` overlaps it, and its substitution rewrites the paragraph to
`<<X>>`, destroying the `<<a>>` occurrence. -/
theorem c10_blank_values_counterexample :
    XmlEngine.ctxFiltered c10Ctx = [("a", "X")] ∧
    containsSub "<<a>>".toList (XmlEngine.getParagraphText [⟨"<<a>>".toList, false⟩]) = true ∧
    XmlEngine.replace_variables 10 c10Ctx c10Doc = some [[⟨"<<X>>".toList, false⟩]] ∧
    containsSub "<<a>>".toList (XmlEngine.getParagraphText [⟨"<<X>>".toList, false⟩]) = false :=
  ⟨rfl, rfl, rfl, rfl⟩

theorem processParaMarkers_no_occurrence :
    ∀ (pairs : List (String × String)) (fuel : Nat) (p : XmlEngine.Paragraph),
    0 < fuel →
    (∀ pair ∈ pairs, containsSub pair.1.toList (XmlEngine.getParagraphText p) = false) →
    XmlEngine.processParaMarkers fuel pairs p = some p := by
  intro pairs
  induction pairs with
  | nil => intro fuel p hf hocc; rfl
  | cons mv rest ih =>
    intro fuel p hf hocc
    obtain ⟨n, rfl⟩ := Nat.exists_eq_add_of_lt hf
    unfold XmlEngine.processParaMarkers
    have hloop : XmlEngine.replaceMarkerLoop (0 + n + 1) mv.1.toList mv.2.toList p = some p := by
      unfold XmlEngine.replaceMarkerLoop
      rw [hocc mv (List.mem_cons_self ..), if_neg Bool.false_ne_true]
    rw [hloop]
    exact ih (0 + n + 1) p (Nat.succ_pos _)
      (fun pair hp => hocc pair (List.mem_cons_of_mem _ hp))

theorem processDoc_no_occurrence :
    ∀ (doc : XmlEngine.Document) (pairs : List (String × String)) (fuel : Nat),
    0 < fuel →
    (∀ p ∈ doc, ∀ pair ∈ pairs, containsSub pair.1.toList (XmlEngine.getParagraphText p) = false) →
    XmlEngine.processDoc fuel pairs doc = some doc := by
  intro doc
  induction doc with
  | nil => intro pairs fuel hf h; rfl
  | cons p rest ih =>
    intro pairs fuel hf h
    unfold XmlEngine.processDoc
    have hp : XmlEngine.processPara fuel pairs p = some p := by
      unfold XmlEngine.processPara
      cases he : (XmlEngine.getParagraphText p).isEmpty with
      | true => rw [if_pos rfl]
      | false =>
        rw [if_neg Bool.false_ne_true]
        exact processParaMarkers_no_occurrence pairs fuel p hf
          (fun pair hpair => h p (List.mem_cons_self ..) pair hpair)
    rw [hp, ih pairs fuel hf (fun q hq pair hpair => h q (List.mem_cons_of_mem _ hq) pair hpair)]
    rfl

/-- Claim C10 (amended): a context entry whose value is `None`, empty, or
whitespace-only is dropped by the filter, so no substitution is ever
performed for that key; in a paragraph in which no non-blank entry
marker occurs, the phase changes nothing, so the blank-valued marker
remains present.  A non-blank substitution overlapping the marker can,
however, destroy its occurrence (see the counterexample). -/
theorem c10_blank_values_amended :
    (∀ (k : String) (v : XmlEngine.CtxVal) (context : List (String × XmlEngine.CtxVal)),
      (v = Option.none ∨ v = some "" ∨
        (∃ s, v = some s ∧ (pyStrip s.toList).isEmpty = true)) →
      XmlEngine.ctxFiltered ((k, v) :: context) = XmlEngine.ctxFiltered context) ∧
    (∀ (fuel : Nat) (context : List (String × XmlEngine.CtxVal)) (p : XmlEngine.Paragraph),
      0 < fuel →
      (∀ pair ∈ XmlEngine.ctxFiltered context,
        containsSub pair.1.toList (XmlEngine.getParagraphText p) = false) →
      XmlEngine.processPara fuel (XmlEngine.ctxFiltered context) p = some p) ∧
    (∀ (fuel : Nat) (context : List (String × XmlEngine.CtxVal))
        (doc doc2 : XmlEngine.Document),
      0 < fuel →
      XmlEngine.replace_variables fuel context doc = some doc2 →
      (∀ p ∈ doc, ∀ pair ∈ XmlEngine.ctxFiltered context,
        containsSub pair.1.toList (XmlEngine.getParagraphText p) = false) →
      doc2 = doc) := by
  refine ⟨?_, ?_, ?_⟩
  · intro k v context hblank
    rcases hblank with h | h | ⟨str2, h, hstrip⟩
    · subst h; rfl
    · subst h; rfl
    · subst h
      unfold XmlEngine.ctxFiltered
      simp only [List.filterMap_cons]
      rw [if_neg (by rw [hstrip]; simp)]
  · intro fuel context p hf hocc
    unfold XmlEngine.processPara
    cases he : (XmlEngine.getParagraphText p).isEmpty with
    | true => rw [if_pos rfl]
    | false =>
      rw [if_neg Bool.false_ne_true]
      exact processParaMarkers_no_occurrence (XmlEngine.ctxFiltered context) fuel p hf hocc
  · intro fuel context doc doc2 hf h hocc
    unfold XmlEngine.replace_variables at h
    cases hemp : (XmlEngine.ctxFiltered context).isEmpty with
    | true =>
      rw [hemp, if_pos rfl] at h
      exact (Option.some.inj h).symm
    | false =>
      rw [hemp, if_neg Bool.false_ne_true] at h
      have h2 := processDoc_no_occurrence doc (XmlEngine.ctxFiltered context) fuel hf hocc
      rw [h2] at h
      exact (Option.some.inj h).symm

/-- Claim C10 witness: the blank entry of `c10Ctx` is filtered out, and a
document in which the non-blank marker `a` does not occur is returned
unchanged by a completed phase. -/
theorem c10_blank_values_amended_witness :
    XmlEngine.ctxFiltered c10Ctx = XmlEngine.ctxFiltered [("a", some "X")] ∧
    XmlEngine.processPara 5 (XmlEngine.ctxFiltered c10Ctx) [⟨"<<b>> texto".toList, false⟩] =
      some [⟨"<<b>> texto".toList, false⟩] ∧
    ([[⟨"<<b>> texto".toList, false⟩]] : XmlEngine.Document) = c10NoMarkerDoc :=
  ⟨c10_blank_values_amended.1 "<<a>>" Option.none [("a", some "X")] (Or.inl rfl),
   c10_blank_values_amended.2.1 5 c10Ctx [⟨"<<b>> texto".toList, false⟩] (by decide)
     (by
       intro pair hp
       rw [show XmlEngine.ctxFiltered c10Ctx = [("a", "X")] from rfl] at hp
       cases List.mem_singleton.mp hp
       rfl),
   c10_blank_values_amended.2.2 5 c10Ctx c10NoMarkerDoc [[⟨"<<b>> texto".toList, false⟩]]
     (by decide) rfl
     (by
       intro p hp pair hpair
       rw [show XmlEngine.ctxFiltered c10Ctx = [("a", "X")] from rfl] at hpair
       cases List.mem_singleton.mp hpair
       cases List.mem_singleton.mp hp
       rfl)⟩

/-- Claim C6 counterexample: the XML render path does not filter reserved
keys — `replace_variables` substitutes the reserved key `_cfg_tab`
wherever its name occurs literally, so its value appears as document
text. -/
theorem c6_reserved_keys_counterexample :
    PyStr.charsPrefix "_".toList "_cfg_tab".toList = true ∧
    XmlEngine.replace_variables 10 c6Ctx c6Doc =
      some [[⟨"see SECRET here".toList, false⟩]] ∧
    containsSub "SECRET".toList
      (XmlEngine.getParagraphText [⟨"see SECRET here".toList, false⟩]) = true :=
  ⟨rfl, rfl, rfl⟩

/-- Claim C6 (amended): the Jinja2 render path removes every reserved
(underscore-prefixed) key from the render context before substitution,
so on that path reserved values never reach the renderer; the XML path
performs no such filtering (see the counterexample) and keeps reserved
values out of the output only insofar as templates never contain
reserved key names as literal text. -/
theorem c6_reserved_keys_amended :
    ∀ (formatted : List (String × Option String)) (pair : String × String),
      pair ∈ WordEngine.jinjaCleanContext formatted →
      PyStr.charsPrefix "_".toList pair.1.toList = false := by
  intro formatted pair hp
  unfold WordEngine.jinjaCleanContext at hp
  obtain ⟨q, hq, hpair⟩ := List.mem_map.mp hp
  have hfilter := (List.mem_filter.mp hq).2
  subst hpair
  simpa using hfilter

/-- Claim C6 witness: a mixed context — the reserved key is dropped, the
plain key survives with a non-reserved name. -/
theorem c6_reserved_keys_amended_witness :
    PyStr.charsPrefix "_".toList ("nombre", "Ana").1.toList = false :=
  c6_reserved_keys_amended [("_cfg_tab", some "SECRET"), ("nombre", some "Ana")]
    ("nombre", "Ana")
    (by
      rw [show WordEngine.jinjaCleanContext [("_cfg_tab", some "SECRET"), ("nombre", some "Ana")] =
        [("nombre", "Ana")] from rfl]
      exact List.mem_singleton.mpr rfl)

/-- Claim C4 (code bug): splicing a fragment whose body ends with the
standard body-level `sectPr` — as every Word document body does —
inserts that `sectPr` into the host document: the strip routine removes
only section properties strictly below each copied element and cannot
remove a copied element that itself is a `sectPr`.  The host `sectPr`
count grows by one, contradicting the claim and the stated intent of
the source comments. -/
theorem c4_sectpr_introduced_at_failing_input :
    XmlTree.countSectPrList c4Host = 0 ∧
    XmlTree.countSectPrList c4Frag = 2 ∧
    XmlTree.insertConditionalBlock 10 "<<X>>".toList c4Frag c4Host = some c4Result ∧
    XmlTree.countSectPrList c4Result = XmlTree.countSectPrList c4Host + 1 :=
  ⟨rfl, rfl, rfl, rfl⟩

/-- Claim C5 counterexample: the code counts page-break paragraphs, not
page-break elements.  With two explicit page breaks in the single
paragraph before the entry marker, the written page number is 2, while
1 + (number of explicit page breaks preceding the marker) = 3. -/
theorem c5_page_number_counterexample :
    Toc.process_table_of_contents 50 c5Paras = some c5Result ∧
    c5WrittenText = "Cap".toList ++ [' '] ++ List.replicate 74 '.' ++ [' '] ++ Toc.natDigits 2 ∧
    Toc.findMarkerPageNumberXml (Toc.mkNumMarker ['1']) 2 c5Paras.enum = some 2 ∧
    Toc.brPageCount c5BodyPara = 2 ∧
    Toc.brsBeforeMarkerInPara (Toc.mkNumMarker ['1']) c5BodyPara = 2 :=
  ⟨rfl, rfl, rfl, rfl, rfl⟩

theorem fmpnGo_first_found (marker : List Char) :
    ∀ (pre : List (Nat × Toc.TocPara)) (iM : Nat) (pMark : Toc.TocPara)
      (post : List (Nat × Toc.TocPara)) (pc : Nat),
    (∀ q ∈ pre, containsSub marker (Toc.paraText q.2) = false) →
    containsSub marker (Toc.paraText pMark) = true →
    Toc.fmpnGo marker (pre ++ (iM, pMark) :: post) pc =
      some (pc + pre.countP (fun q => Toc.hasPageBreakXml q.2) +
        (if Toc.hasPageBreakXml pMark then 1 else 0)) := by
  intro pre
  induction pre with
  | nil =>
    intro iM pMark post pc hpre hmark
    rw [List.nil_append]
    cases hbr : Toc.hasPageBreakXml pMark <;> simp [Toc.fmpnGo, hmark, hbr]
  | cons q pre2 ih =>
    intro iM pMark post pc hpre hmark
    obtain ⟨i0, p0⟩ := q
    have h0 : containsSub marker (Toc.paraText p0) = false :=
      hpre (i0, p0) (List.mem_cons_self ..)
    rw [List.cons_append]
    have hstep : Toc.fmpnGo marker ((i0, p0) :: (pre2 ++ (iM, pMark) :: post)) pc =
        Toc.fmpnGo marker (pre2 ++ (iM, pMark) :: post)
          (if Toc.hasPageBreakXml p0 then pc + 1 else pc) := by
      simp [Toc.fmpnGo, h0]
    rw [hstep, ih iM pMark post _ (fun r hr => hpre r (List.mem_cons_of_mem _ hr)) hmark,
      List.countP_cons]
    simp only [Option.some.injEq]
    cases hbr : Toc.hasPageBreakXml p0 <;>
      cases hbr2 : Toc.hasPageBreakXml pMark <;>
        simp <;> omega

theorem brPage_ite_eq_count (p : Toc.TocPara)
    (h1 : Toc.sectForcesPage p = false)
    (h2 : p.items.any Toc.isLastRendered = false)
    (h3 : Toc.brPageCount p ≤ 1) :
    (if Toc.hasPageBreakXml p then 1 else 0) = Toc.brPageCount p := by
  unfold Toc.hasPageBreakXml
  rw [h1, h2]
  simp only [Bool.false_or]
  cases hany : p.items.any Toc.isBrPage with
  | false =>
    simp only [if_false, Bool.false_eq_true]
    unfold Toc.brPageCount
    symm
    rw [List.countP_eq_zero]
    intro a ha
    have := List.any_eq_false.mp hany a ha
    simpa using this
  | true =>
    simp only [if_true]
    obtain ⟨a, ha, hpa⟩ := List.any_eq_true.mp hany
    have hpos : 0 < Toc.brPageCount p := by
      unfold Toc.brPageCount
      exact List.countP_pos_iff.mpr ⟨a, ha, hpa⟩
    omega

theorem countP_break_eq_sum_brPage :
    ∀ (l : List (Nat × Toc.TocPara)),
    (∀ q ∈ l, Toc.sectForcesPage q.2 = false ∧ q.2.items.any Toc.isLastRendered = false ∧
      Toc.brPageCount q.2 ≤ 1) →
    l.countP (fun q => Toc.hasPageBreakXml q.2) =
      (l.map (fun q => Toc.brPageCount q.2)).sum := by
  intro l
  induction l with
  | nil => intro h; rfl
  | cons q rest ih =>
    intro h
    obtain ⟨h1, h2, h3⟩ := h q (List.mem_cons_self ..)
    rw [List.countP_cons, List.map_cons, List.sum_cons,
      ih (fun r hr => h r (List.mem_cons_of_mem _ hr))]
    have heq := brPage_ite_eq_count q.2 h1 h2 h3
    cases hbr : Toc.hasPageBreakXml q.2 with
    | false =>
      simp only [hbr, Bool.false_eq_true, if_false] at heq ⊢
      omega
    | true =>
      simp only [hbr, if_pos rfl] at heq ⊢
      omega

theorem paraText_appendBrEnd (p : Toc.TocPara) :
    Toc.paraText (Toc.appendBrEnd p) = Toc.paraText p := by
  simp [Toc.appendBrEnd, Toc.paraText]

theorem paraText_prependBrStart (p : Toc.TocPara) :
    Toc.paraText (Toc.prependBrStart p) = Toc.paraText p := by
  simp [Toc.prependBrStart, Toc.paraText]

theorem mem_updateById_text (doc : Toc.Doc) (i : Nat) (f : Toc.TocPara → Toc.TocPara)
    (hf : ∀ p, Toc.paraText (f p) = Toc.paraText p) :
    ∀ q ∈ Toc.updateById doc i f, ∃ p, (q.1, p) ∈ doc ∧ Toc.paraText q.2 = Toc.paraText p := by
  intro q hq
  obtain ⟨r, hr, hrq⟩ := List.mem_map.mp hq
  by_cases hi : r.1 = i
  · rw [if_pos hi] at hrq
    refine ⟨r.2, ?_, ?_⟩
    · rw [← hrq]; simpa [Prod.mk.eta] using hr
    · rw [← hrq]; exact hf r.2
  · rw [if_neg hi] at hrq
    rw [← hrq]
    exact ⟨r.2, by simpa [Prod.mk.eta] using hr, rfl⟩

theorem mem_insertPbBM (m : List Char) (e : Nat) (doc : Toc.Doc) :
    ∀ q ∈ Toc.insertPageBreakBeforeMarker m e doc,
      ∃ p, (q.1, p) ∈ doc ∧ Toc.paraText q.2 = Toc.paraText p := by
  intro q hq
  unfold Toc.insertPageBreakBeforeMarker at hq
  split at hq
  · exact ⟨q.2, by simpa [Prod.mk.eta] using hq, rfl⟩
  · split at hq
    · simp only [] at hq
      split at hq
      · exact ⟨q.2, by simpa [Prod.mk.eta] using hq, rfl⟩
      · exact mem_updateById_text _ _ _ paraText_appendBrEnd q hq
    · simp only [] at hq
      split at hq
      · exact ⟨q.2, by simpa [Prod.mk.eta] using hq, rfl⟩
      · exact mem_updateById_text _ _ _ paraText_prependBrStart q hq

theorem mem_foldl_insertPbBM (e : Nat) :
    ∀ (ents : List Toc.Entry) (doc : Toc.Doc) (q : Nat × Toc.TocPara),
    q ∈ ents.foldl
      (fun d ent => Toc.insertPageBreakBeforeMarker (Toc.mkNumMarker ent.digits) e d) doc →
    ∃ p, (q.1, p) ∈ doc ∧ Toc.paraText q.2 = Toc.paraText p := by
  intro ents
  induction ents with
  | nil =>
    intro doc q hq
    exact ⟨q.2, by simpa [Prod.mk.eta] using hq, rfl⟩
  | cons ent rest ih =>
    intro doc q hq
    rw [List.foldl_cons] at hq
    obtain ⟨p1, hp1, ht1⟩ := ih _ q hq
    obtain ⟨p2, hp2, ht2⟩ := mem_insertPbBM (Toc.mkNumMarker ent.digits) e doc (q.1, p1) hp1
    exact ⟨p2, hp2, ht1.trans ht2⟩

theorem fmpnGo_none_of_no_marker (m : List Char) :
    ∀ (l : List (Nat × Toc.TocPara)) (pc : Nat),
    (∀ q ∈ l, containsSub m (Toc.paraText q.2) = false) →
    Toc.fmpnGo m l pc = Option.none := by
  intro l
  induction l with
  | nil => intro pc _; rfl
  | cons q rest ih =>
    intro pc h
    obtain ⟨i0, p0⟩ := q
    have h0 := h (i0, p0) (List.mem_cons_self ..)
    simp only [Toc.fmpnGo, h0, Bool.false_eq_true, if_false]
    exact ih _ (fun r hr => h r (List.mem_cons_of_mem _ hr))

theorem findMarkerPageNumberXml_none (m : List Char) (e : Nat) (doc : Toc.Doc)
    (h : ∀ q ∈ doc, e < q.1 → containsSub m (Toc.paraText q.2) = false) :
    Toc.findMarkerPageNumberXml m e doc = Option.none := by
  unfold Toc.findMarkerPageNumberXml
  apply fmpnGo_none_of_no_marker
  intro q hq
  have hm := List.mem_filter.mp hq
  exact h q hm.1 (by simpa using hm.2)

theorem tocMarkerToPage_find_none (ents : List Toc.Entry) (e : Nat) (doc : Toc.Doc)
    (ds : List Char)
    (h : ∀ ent2 ∈ ents, ent2.digits = ds →
      Toc.findMarkerPageNumberXml (Toc.mkNumMarker ent2.digits) e doc = Option.none) :
    (Toc.tocMarkerToPage ents e doc).find? (fun q => q.1 = ds) = Option.none := by
  rw [List.find?_eq_none]
  intro x hx
  obtain ⟨ent2, hent2, hf⟩ := List.mem_filterMap.mp hx
  cases hm : Toc.findMarkerPageNumberXml (Toc.mkNumMarker ent2.digits) e doc with
  | none => rw [hm] at hf; exact absurd hf (by simp)
  | some pg =>
    rw [hm] at hf
    have hx2 : (ent2.digits, pg) = x := by simpa using hf
    intro hcon
    have hds : ent2.digits = ds := by
      rw [← hx2] at hcon
      simpa using hcon
    rw [h ent2 hent2 hds] at hm
    exact Option.noConfusion hm

theorem idAbsent_updateById (doc : Toc.Doc) (j : Nat) (f : Toc.TocPara → Toc.TocPara)
    (i : Nat) (h : ∀ q ∈ doc, q.1 ≠ i) :
    ∀ q ∈ Toc.updateById doc j f, q.1 ≠ i := by
  intro q hq
  obtain ⟨r, hr, hrq⟩ := List.mem_map.mp hq
  by_cases hj : r.1 = j
  · rw [if_pos hj] at hrq
    rw [← hrq]
    exact h r hr
  · rw [if_neg hj] at hrq
    rw [← hrq]
    exact h r hr

theorem idAbsent_removeById_self (doc : Toc.Doc) (i : Nat) :
    ∀ q ∈ Toc.removeById doc i, q.1 ≠ i := by
  intro q hq
  have := (List.mem_filter.mp hq).2
  simpa using this

theorem idAbsent_removeById (doc : Toc.Doc) (j i : Nat) (h : ∀ q ∈ doc, q.1 ≠ i) :
    ∀ q ∈ Toc.removeById doc j, q.1 ≠ i :=
  fun q hq => h q (List.mem_of_mem_filter hq)

theorem idAbsent_phase3Step (m2p : List (List Char × Nat)) (doc : Toc.Doc) (ent : Toc.Entry)
    (i : Nat) (h : ∀ q ∈ doc, q.1 ≠ i) :
    ∀ q ∈ Toc.phase3Step m2p doc ent, q.1 ≠ i := by
  unfold Toc.phase3Step
  split
  · exact idAbsent_updateById doc ent.idx _ i h
  · exact idAbsent_removeById doc ent.idx i h

theorem idAbsent_foldl_phase3 (m2p : List (List Char × Nat)) (i : Nat) :
    ∀ (ents : List Toc.Entry) (doc : Toc.Doc),
    (∀ q ∈ doc, q.1 ≠ i) →
    ∀ q ∈ ents.foldl (Toc.phase3Step m2p) doc, q.1 ≠ i := by
  intro ents
  induction ents with
  | nil => intro doc h q hq; exact h q hq
  | cons ent rest ih =>
    intro doc h
    rw [List.foldl_cons]
    exact ih _ (idAbsent_phase3Step m2p doc ent i h)

theorem idAbsent_stripNumAllT (doc : Toc.Doc) (i : Nat) (h : ∀ q ∈ doc, q.1 ≠ i) :
    ∀ q ∈ Toc.stripNumAllT doc, q.1 ≠ i := by
  intro q hq
  obtain ⟨r, hr, hrq⟩ := List.mem_map.mp hq
  rw [← hrq]
  exact h r hr

theorem idAbsent_cleanupMarkerPara (fuel : Nat) (doc : Toc.Doc) (j : Nat) (m : List Char)
    (i : Nat) (doc2 : Toc.Doc) (h : ∀ q ∈ doc, q.1 ≠ i)
    (hc : Toc.cleanupMarkerPara fuel doc j m = some doc2) :
    ∀ q ∈ doc2, q.1 ≠ i := by
  unfold Toc.cleanupMarkerPara at hc
  split at hc
  · have h2 := Option.some.inj hc
    rw [← h2]
    exact h
  · simp only [Option.bind_eq_bind, Option.bind_eq_some, Option.pure_def,
      Option.some.injEq] at hc
    obtain ⟨p2, hl, h2⟩ := hc
    rw [← h2]
    split
    · exact idAbsent_removeById _ j i (idAbsent_updateById doc j _ i h)
    · exact idAbsent_updateById doc j _ i h

theorem phase3Step_drop (m2p : List (List Char × Nat)) (doc : Toc.Doc) (ent : Toc.Entry)
    (h : m2p.find? (fun q => q.1 = ent.digits) = Option.none) :
    Toc.phase3Step m2p doc ent = Toc.removeById doc ent.idx := by
  unfold Toc.phase3Step
  rw [h]

/-- Claim C5 (amended): what `_find_marker_page_number_xml` computes is a
paragraph-level count: one plus the number of break-containing paragraphs
up to the start index, plus the number of break-containing paragraphs
strictly between the start index and the marker, plus one more when the
marker paragraph itself contains a page break anywhere (part 1).  When
every paragraph before the marker contains at most one explicit page break
and no section-change or rendered break, and the marker paragraph has
none, this equals 1 + the number of explicit page-break elements before
the marker, as the specification states (part 2).  An entry whose numeric
marker is never found after the index end is removed from the body by
phase 3, so it is dropped rather than left dangling (part 3). -/
theorem c5_page_number_amended :
    (∀ (doc : Toc.Doc) (startIdx : Nat) (marker : List Char)
       (pre : List (Nat × Toc.TocPara)) (iM : Nat) (pMark : Toc.TocPara)
       (post : List (Nat × Toc.TocPara)),
      doc.filter (fun q => startIdx < q.1) = pre ++ (iM, pMark) :: post →
      (∀ q ∈ pre, containsSub marker (Toc.paraText q.2) = false) →
      containsSub marker (Toc.paraText pMark) = true →
      Toc.findMarkerPageNumberXml marker startIdx doc =
        some (1 + (doc.filter (fun q => q.1 ≤ startIdx)).countP (fun q => Toc.hasPageBreakXml q.2)
          + pre.countP (fun q => Toc.hasPageBreakXml q.2)
          + (if Toc.hasPageBreakXml pMark then 1 else 0))) ∧
    (∀ (doc : Toc.Doc) (startIdx : Nat) (marker : List Char)
       (pre : List (Nat × Toc.TocPara)) (iM : Nat) (pMark : Toc.TocPara)
       (post : List (Nat × Toc.TocPara)),
      doc.filter (fun q => startIdx < q.1) = pre ++ (iM, pMark) :: post →
      (∀ q ∈ pre, containsSub marker (Toc.paraText q.2) = false) →
      containsSub marker (Toc.paraText pMark) = true →
      (∀ q ∈ doc.filter (fun q => q.1 ≤ startIdx) ++ pre,
        Toc.sectForcesPage q.2 = false ∧ q.2.items.any Toc.isLastRendered = false ∧
        Toc.brPageCount q.2 ≤ 1) →
      Toc.hasPageBreakXml pMark = false →
      Toc.findMarkerPageNumberXml marker startIdx doc =
        some (1 + (((doc.filter (fun q => q.1 ≤ startIdx) ++ pre).map
          (fun q => Toc.brPageCount q.2)).sum))) ∧
    (∀ (fuel : Nat) (ps : List Toc.TocPara) (s e : Nat) (result : Toc.Doc) (ent : Toc.Entry),
      Toc.findTocBounds ps.enum = (some s, some e) →
      ent ∈ Toc.extractEntries ps.enum s e →
      (∀ q ∈ ps.enum, e < q.1 →
        containsSub (Toc.mkNumMarker ent.digits) (Toc.paraText q.2) = false) →
      Toc.process_table_of_contents fuel ps = some result →
      ∀ q ∈ result, q.1 ≠ ent.idx) := by
  refine ⟨?_, ?_, ?_⟩
  · intro doc startIdx marker pre iM pMark post hsplit hpre hmark
    unfold Toc.findMarkerPageNumberXml
    rw [hsplit, fmpnGo_first_found marker pre iM pMark post _ hpre hmark]
    unfold Toc.calculatePageCountUntilIdx
    rfl
  · intro doc startIdx marker pre iM pMark post hsplit hpre hmark hshape hnobr
    unfold Toc.findMarkerPageNumberXml
    rw [hsplit, fmpnGo_first_found marker pre iM pMark post _ hpre hmark]
    unfold Toc.calculatePageCountUntilIdx
    rw [hnobr]
    have hA := countP_break_eq_sum_brPage (doc.filter (fun q => q.1 ≤ startIdx))
      (fun q hq => hshape q (List.mem_append_left _ hq))
    have hB := countP_break_eq_sum_brPage pre
      (fun q hq => hshape q (List.mem_append_right _ hq))
    rw [List.map_append, List.sum_append, ← hA, ← hB]
    simp only [Bool.false_eq_true, if_false, Option.some.injEq]
    omega
  · intro fuel ps s e result ent hbounds hent habs hproc
    unfold Toc.process_table_of_contents at hproc
    simp only [] at hproc
    rw [hbounds] at hproc
    have hne : (Toc.extractEntries ps.enum s e).isEmpty = false := by
      cases hcase : Toc.extractEntries ps.enum s e with
      | nil => rw [hcase] at hent; exact absurd hent (List.not_mem_nil ent)
      | cons a l => rfl
    split at hproc
    · rename_i s2 e2 hempty
      have hs : s = s2 := Option.some.inj (congrArg Prod.fst hempty)
      have he : e = e2 := Option.some.inj (congrArg Prod.snd hempty)
      subst hs
      subst he
      rw [hne] at hproc
      rw [if_neg Bool.false_ne_true] at hproc
      set entries := Toc.extractEntries ps.enum s e with hentries
      set doc1 := entries.foldl
        (fun d ent => Toc.insertPageBreakBeforeMarker (Toc.mkNumMarker ent.digits) e d)
        ps.enum with hdoc1
      set m2p := Toc.tocMarkerToPage entries e doc1 with hm2p
      have habs1 : ∀ q ∈ doc1, e < q.1 →
          containsSub (Toc.mkNumMarker ent.digits) (Toc.paraText q.2) = false := by
        intro q hq hlt
        obtain ⟨p, hp, ht⟩ := mem_foldl_insertPbBM e entries ps.enum q hq
        rw [ht]
        exact habs (q.1, p) hp hlt
      have hfind : m2p.find? (fun q => q.1 = ent.digits) = Option.none := by
        apply tocMarkerToPage_find_none
        intro ent2 hent2 hds
        rw [hds]
        exact findMarkerPageNumberXml_none _ e doc1 habs1
      have habs2 : ∀ q ∈ entries.foldl (Toc.phase3Step m2p) doc1, q.1 ≠ ent.idx := by
        obtain ⟨l1, l2, hsplitE⟩ := List.append_of_mem hent
        rw [hsplitE, List.foldl_append, List.foldl_cons,
          phase3Step_drop m2p _ ent hfind]
        exact idAbsent_foldl_phase3 m2p ent.idx l2 _
          (idAbsent_removeById_self _ ent.idx)
      have habs3 := idAbsent_stripNumAllT _ ent.idx habs2
      simp only [Option.bind_eq_bind, Option.bind_eq_some, Option.pure_def,
        Option.some.injEq] at hproc
      obtain ⟨doc4, hc4, doc5, hc5, hres⟩ := hproc
      have habs4 := idAbsent_cleanupMarkerPara _ _ _ _ _ _ habs3 hc4
      have habs5 := idAbsent_cleanupMarkerPara _ _ _ _ _ _ habs4 hc5
      rw [← hres]
      split
      · exact idAbsent_updateById doc5 (s - 1) _ ent.idx habs5
      · exact habs5
    · rename_i hw
      exact (hw s e rfl).elim

/-- Witness: part 1 at the counterexample document with start index 2
(page 2 for the marker after two break elements in one paragraph); part 2
at the same document with start index 0 (page 1, matching the element
count); part 3 at the dropped-entry document (index 1 absent from the
final body). -/
theorem c5_page_number_amended_witness :
    Toc.findMarkerPageNumberXml (Toc.mkNumMarker ['1']) 2 c5Paras.enum = some 2 ∧
    Toc.findMarkerPageNumberXml (Toc.mkNumMarker ['1']) 0 c5Paras.enum = some 1 ∧
    (∀ q ∈ c5DroppedResult, q.1 ≠ 1) := by
  obtain ⟨h1, h2, h3⟩ := c5_page_number_amended
  refine ⟨?_, ?_, ?_⟩
  · have hx := h1 c5Paras.enum 2 (Toc.mkNumMarker ['1']) [] 3 c5BodyPara []
      rfl (by decide) (by decide)
    rw [hx]
    decide
  · have hx := h2 c5Paras.enum 0 (Toc.mkNumMarker ['1']) []
      1 ⟨[.tnode "Cap 1 <<1>>".toList false], Option.none⟩
      [(2, ⟨[.tnode "<<fin Indice>>".toList false], Option.none⟩), (3, c5BodyPara)]
      (by decide) (by decide) (by decide) (by decide) (by decide)
    rw [hx]
    decide
  · exact h3 50 c5DroppedParas 0 3 c5DroppedResult ⟨1, "Seccion perdida".toList, ['7']⟩
      rfl (by decide) (by decide) rfl

end Claims
